import Mathlib

/-!
# Verification of the `image_manager` classification-and-copy engine

Shallow embedding of the core of the repository:

* `get_image_metadata` (identical in `picman.py` and `image-organizer-v3.py`):
  per-file date resolution from EXIF with a modification-time fallback;
* `copy_images_by_date` of `picman.py` (a `simple_copy` flat mode and a
  date-hierarchy mode with an in-memory collision counter);
* `copy_images_by_date` of `image-organizer-v3.py` (date hierarchy with an
  existence-probing rename loop);
* `copy_images_by_date` of `main.py` (one flat date folder per EXIF date,
  plain `shutil.copy`, per-file `try/except`).

The file system is a finite association list from path strings to what the
engine can observe about a file (decodability as an image, the EXIF
dictionary, the modification date, an abstract content id).  Runs are
modelled as state transformers that also emit an ordered trace of events:
progress-callback invocations, directory creations, file copies (tagged
with whether the copy preserves metadata, i.e. `shutil.copy2` vs
`shutil.copy`) and per-file error reports.  I/O failure of an individual
copy is an environment choice, modelled by an oracle `copyOk`; an uncaught
Python exception ends a run (`ok := false`), a caught one emits a report
event and continues.
-/

/-- A calendar date, the value of Python's `datetime.date` as used here. -/
structure CalDate where
  year : Nat
  month : Nat
  day : Nat
deriving DecidableEq

/-- A Python dict key as they occur in the EXIF dictionaries.  PIL's
`_getexif()` returns a dict keyed by integer tag ids; the repository's tag
lookup produces a string, and Python happily tests membership of a string
key in an int-keyed dict (it is simply never present). -/
inductive PyKey where
  | intK : Nat → PyKey
  | strK : String → PyKey
deriving DecidableEq

/-- What the engine can observe about one file: whether PIL decodes it as an
image, the EXIF dict (`none` models `_getexif()` returning `None`), the
calendar date of its modification time, and an abstract content id used to
tell files apart. -/
structure FileInfo where
  decodable : Bool
  exif : Option (List (PyKey × String))
  mtimeDate : CalDate
  content : Nat
deriving DecidableEq

/-- Association-list lookup, modelling Python `dict` access. -/
def dGet {α β : Type} [DecidableEq α] : List (α × β) → α → Option β
  | [], _ => none
  | (a, b) :: t, k => if a = k then some b else dGet t k

/-- Association-list update: replace in place when the key is present,
append otherwise.  This reproduces Python's insertion-ordered dicts. -/
def dSet {α β : Type} [DecidableEq α] : List (α × β) → α → β → List (α × β)
  | [], k, v => [(k, v)]
  | (a, b) :: t, k, v => if a = k then (k, v) :: t else (a, b) :: dSet t k v

/-- The observable file system: a finite map from paths to files. -/
abbrev FS : Type := List (String × FileInfo)

/-- `os.path.exists` on the modelled file system. -/
def fsExists (fs : FS) (p : String) : Bool :=
  (dGet fs p).isSome

/-- `os.path.join` for two components (POSIX). -/
def pjoin (a b : String) : String :=
  a ++ "/" ++ b

/-- `os.path.basename`: everything after the last slash. -/
def basename (p : String) : String :=
  ⟨(p.data.reverse.takeWhile (fun c => c ≠ '/')).reverse⟩

/-- `os.path.splitext` on a bare file name: split before the last dot,
except that leading dots never start an extension. -/
def splitext (s : String) : String × String :=
  let cs := s.data
  let dots := (List.range cs.length).filter (fun i => cs.getD i ' ' = '.')
  match dots.getLast? with
  | none => (s, "")
  | some i =>
      if (List.range i).any (fun j => cs.getD j ' ' ≠ '.') then
        (⟨cs.take i⟩, ⟨cs.drop i⟩)
      else (s, "")

/-- Split a character list at every occurrence of `c` (Python `str.split`
with a one-character separator). -/
def splitCharAux (c : Char) : List Char → List (List Char)
  | [] => [[]]
  | x :: xs =>
    let r := splitCharAux c xs
    if x = c then [] :: r
    else
      match r with
      | [] => [[x]]
      | h :: t => (x :: h) :: t

/-- `str.split` with a one-character separator, on strings. -/
def splitChar (c : Char) (s : String) : List String :=
  (splitCharAux c s.data).map (fun l => ⟨l⟩)

/-- Parse a non-empty all-digit string as a decimal number, else `none`. -/
def decDigits? (s : String) : Option Nat :=
  if s.data.isEmpty then none
  else if s.data.all Char.isDigit then
    some (s.data.foldl (fun acc c => acc * 10 + (c.toNat - 48)) 0)
  else none

/-- Model of `datetime.strptime(s, '%Y:%m:%d %H:%M:%S').date()`: the result
is the date component, and any string that does not match the pattern (with
in-range fields) raises `ValueError`, modelled as `none`. -/
def strptime_date (s : String) : Option CalDate :=
  match splitChar ' ' s with
  | [ds, ts] =>
    match splitChar ':' ds, splitChar ':' ts with
    | [ys, ms, dds], [hs, mins, ss] =>
      match decDigits? ys, decDigits? ms, decDigits? dds,
            decDigits? hs, decDigits? mins, decDigits? ss with
      | some y, some mo, some dd, some h, some mi, some sec =>
        if 1 ≤ mo ∧ mo ≤ 12 ∧ 1 ≤ dd ∧ dd ≤ 31 ∧ h ≤ 23 ∧ mi ≤ 59 ∧ sec ≤ 61 then
          some ⟨y, mo, dd⟩
        else none
      | _, _, _, _, _, _ => none
    | _, _ => none
  | _ => none

/-- Model of PIL's `ExifTags.TAGS` table (tag id ↦ tag name), restricted to
the date/time entries relevant to this repository. -/
def ExifTags_TAGS : List (Nat × String) :=
  [(306, "DateTime"), (36867, "DateTimeOriginal"), (36868, "DateTimeDigitized")]

/-- The repository's tag lookup
`next((ExifTags.TAGS[k] for k in ExifTags.TAGS.keys() if ExifTags.TAGS[k] == 'DateTimeOriginal'), None)`:
it scans the tag table and yields the *value* `ExifTags.TAGS[k]` — the tag
name string — rather than the integer key `k`. -/
def date_time_original_tag : Option String :=
  (ExifTags_TAGS.find? (fun kv => kv.2 == "DateTimeOriginal")).map (fun kv => kv.2)

/-- `get_image_metadata` as written (identically) in `picman.py` and
`image-organizer-v3.py`.  Returns the resolved date (or `none` when the
file cannot be opened / decoded, or when `strptime` raises inside the
`try`) together with the base name.  Note the membership test
`date_time_original_tag in exif_data` compares a *string* against the
*int* keys of `_getexif()`'s dict, exactly as the Python does. -/
def get_image_metadata (fs : FS) (image_path : String) : Option CalDate × String :=
  match dGet fs image_path with
  | none => (none, basename image_path)
  | some img =>
    if img.decodable = false then (none, basename image_path)
    else
      match img.exif with
      | some exif_data =>
        if exif_data.isEmpty then (some img.mtimeDate, basename image_path)
        else
          match date_time_original_tag with
          | some tag =>
            if exif_data.any (fun kv => kv.1 == PyKey.strK tag) then
              match dGet exif_data (PyKey.strK tag) with
              | some date_taken =>
                match strptime_date date_taken with
                | some d => (some d, basename image_path)
                | none => (none, basename image_path)
              | none => (none, basename image_path)
            else (some img.mtimeDate, basename image_path)
          | none => (some img.mtimeDate, basename image_path)
      | none => (some img.mtimeDate, basename image_path)

/-- `f"{n:02d}"`. -/
def pad2 (n : Nat) : String :=
  if n < 10 then "0" ++ Nat.repr n else Nat.repr n

/-- `f"{n:04d}"`-style year padding used by `str(datetime.date)`. -/
def pad4 (n : Nat) : String :=
  if n < 10 then "000" ++ Nat.repr n
  else if n < 100 then "00" ++ Nat.repr n
  else if n < 1000 then "0" ++ Nat.repr n
  else Nat.repr n

/-- `str(d)` for a Python `datetime.date`: ISO `YYYY-MM-DD`. -/
def isoDate (d : CalDate) : String :=
  pad4 d.year ++ "-" ++ pad2 d.month ++ "-" ++ pad2 d.day

/-- One observable action of a run.  The progress callback is the abstract
Progress Sink `(processed, total)`; `copy`'s last field records whether the
copy preserves file metadata (`shutil.copy2` does, `shutil.copy` does not);
`report` is a caught-and-printed per-file error. -/
inductive Event where
  | progress (done total : Nat)
  | mkdir (path : String)
  | copy (src dst : String) (preserveMeta : Bool)
  | report (path : String)
deriving DecidableEq

/-- Run state: the evolving file system, the trace so far, and whether the
run is still alive (`ok := false` marks an uncaught Python exception, which
makes every later statement of the function unreachable). -/
structure RunSt where
  fs : FS
  events : List Event
  ok : Bool
deriving DecidableEq

/-- `shutil.copy2 src dst` on the file system: `dst` now holds the source's
bytes and metadata (modification time included).  A successful copy always
materialises `dst`; a source unreadable mid-copy is a failure of the
`copyOk` oracle, not of this update. -/
def doCopy2 (fs : FS) (src dst : String) : FS :=
  dSet fs dst ((dGet fs src).getD ⟨false, none, ⟨1970, 1, 1⟩, 0⟩)

/-- `shutil.copy src dst` (no metadata preservation): `dst` gets the bytes
but a fresh modification time `now`. -/
def doCopyPlain (fs : FS) (src dst : String) (now : CalDate) : FS :=
  let info := (dGet fs src).getD ⟨false, none, ⟨1970, 1, 1⟩, 0⟩
  dSet fs dst { info with mtimeDate := now }

/-- The rename probe shared by `picman.py`'s simple mode and
`image-organizer-v3.py`: starting at suffix `k`, return the first
`{name}_{k}{ext}` not present in `dir`.  The Python `while` loop always
terminates because the file system is finite; `fuel` is instantiated to
`fs.length + 1`, which suffices by pigeonhole, and exhaustion (unreachable
in any real state) is reported as `none` and aborts the modelled run. -/
def probeFrom (fs : FS) (dir name ext : String) : Nat → Nat → Option String
  | _, 0 => none
  | k, fuel + 1 =>
    if fsExists fs (pjoin dir (name ++ "_" ++ Nat.repr k ++ ext)) then
      probeFrom fs dir name ext (k + 1) fuel
    else some (pjoin dir (name ++ "_" ++ Nat.repr k ++ ext))

/-- The probe-then-`copy2` step shared verbatim by `picman.py`'s simple
mode and `image-organizer-v3.py`'s materializer: copy `src` into directory
`df` under `fname`, renaming with the first free `_k` suffix when the plain
name is taken.  An I/O failure of the copy itself (oracle `copyOk`) raises,
i.e. kills the run. -/
def probedCopy2 (df : String) (copyOk : String → String → Bool)
    (st : RunSt) (src fname : String) : RunSt :=
  match (if fsExists st.fs (pjoin df fname) then
           probeFrom st.fs df (splitext fname).1 (splitext fname).2 1
             (st.fs.length + 1)
         else some (pjoin df fname)) with
  | none => { st with ok := false }
  | some dest =>
    if copyOk src dest then
      { fs := doCopy2 st.fs src dest
        events := st.events ++ [Event.copy src dest true]
        ok := st.ok }
    else { st with ok := false }

/-- Python's `enumerate`, starting at `k`. -/
def enumF {α : Type} (k : Nat) : List α → List (Nat × α)
  | [] => []
  | x :: xs => (k, x) :: enumF (k + 1) xs

/-- One iteration of `picman.py`'s `simple_copy` loop: resolve the
destination (probing on collision), `shutil.copy2`, then invoke the
progress callback with `(i + 1, total)`.  When the copy raises, the
callback line is never reached and the loop dies. -/
def picmanSimpleStep (out : String) (total : Nat) (copyOk : String → String → Bool)
    (st : RunSt) (ip : Nat × String) : RunSt :=
  if st.ok = false then st
  else if (probedCopy2 out copyOk st ip.2 (basename ip.2)).ok = true then
    { probedCopy2 out copyOk st ip.2 (basename ip.2) with
      events := (probedCopy2 out copyOk st ip.2 (basename ip.2)).events ++
        [Event.progress (ip.1 + 1) total] }
  else probedCopy2 out copyOk st ip.2 (basename ip.2)

/-- `picman.py`'s `copy_images_by_date` with `simple_copy=True`. -/
def picmanSimpleRun (fs : FS) (images : List String) (out : String)
    (copyOk : String → String → Bool) : RunSt :=
  List.foldl (picmanSimpleStep out images.length copyOk)
    { fs := fs, events := [], ok := true } (enumF 0 images)

/-- The nested-`defaultdict` index of `picman.py`'s date mode:
date ↦ base name ↦ (stored source path, creation counter). -/
abbrev DateDict : Type := List (CalDate × List (String × (Option String × Nat)))

/-- The slot read of `picman.py`'s date-mode scan loop:
`existing_filename, creation_order = file_metadata[date_taken][filename]`,
where the nested `defaultdict` defaults to `(None, 0)`. -/
def picmanScanSlot (fm : DateDict) (d : CalDate) (filename : String) :
    Option String × Nat :=
  (dGet ((dGet fm d).getD []) filename).getD (none, 0)

/-- The conditional write-back of `picman.py`'s scan loop:
`if existing_filename is None or creation_order > 0: file_metadata[date_taken][filename] = (image_path, creation_order + 1)`.
The `defaultdict` access materialises the read slot even when the condition
fails, hence the `else` write-back of the unchanged slot. -/
def picmanScanUpdate (fm : DateDict) (d : CalDate) (filename image_path : String) :
    DateDict :=
  if (picmanScanSlot fm d filename).1 = none ∨ (picmanScanSlot fm d filename).2 > 0 then
    dSet fm d (dSet ((dGet fm d).getD []) filename
      (some image_path, (picmanScanSlot fm d filename).2 + 1))
  else
    dSet fm d (dSet ((dGet fm d).getD []) filename (picmanScanSlot fm d filename))

/-- The scanning loop shared in shape by `picman.py`'s date mode and
`image-organizer-v3.py`: per input file, resolve the date, feed the record
to the index update `upd` when a date was found, and invoke the progress
callback with `(i + 1, total)`. -/
def scanStep {δ : Type} (upd : δ → CalDate → String → String → δ) (fs : FS)
    (total : Nat) (acc : δ × List Event) (ip : Nat × String) : δ × List Event :=
  let md := get_image_metadata fs ip.2
  (match md.1 with
   | some d => upd acc.1 d md.2 ip.2
   | none => acc.1,
   acc.2 ++ [Event.progress (ip.1 + 1) total])

/-- The scanning phase of `picman.py`'s date mode. -/
def picmanScan (fs : FS) (images : List String) : DateDict × List Event :=
  List.foldl (scanStep picmanScanUpdate fs images.length) ([], [])
    (enumF 0 images)

/-- `os.path.join(output_directory, str(date.year), f"{date.month:02d}", f"{date.day:02d}")`. -/
def picmanDateFolder (out : String) (d : CalDate) : String :=
  pjoin (pjoin (pjoin out (Nat.repr d.year)) (pad2 d.month)) (pad2 d.day)

/-- The destination name of `picman.py`'s date mode: `copy_{name}{ext}`
when the creation counter exceeds 1, the plain name otherwise. -/
def picmanDest (folder fname : String) (k : Nat) : String :=
  if k > 1 then pjoin folder ("copy_" ++ (splitext fname).1 ++ (splitext fname).2)
  else pjoin folder fname

/-- Copy one stored record of a date bucket of `picman.py`'s date mode —
with no existence check before writing.  A `none` source slot cannot occur
(the scan only stores `some`); Python would crash on it, modelled as an
aborted run.  An I/O failure of the copy raises and kills the run. -/
def picmanFileStep (folder : String) (copyOk : String → String → Bool)
    (st : RunSt) (fp : String × (Option String × Nat)) : RunSt :=
  if st.ok = false then st
  else
    match fp.2.1 with
    | none => { st with ok := false }
    | some src =>
      if copyOk src (picmanDest folder fp.1 fp.2.2) then
        { fs := doCopy2 st.fs src (picmanDest folder fp.1 fp.2.2)
          events := st.events ++ [Event.copy src (picmanDest folder fp.1 fp.2.2) true]
          ok := st.ok }
      else { st with ok := false }

/-- Process one date bucket of `picman.py`'s date mode: create
`out/year/mm/dd`, then copy the stored records. -/
def picmanBucketStep (out : String) (copyOk : String → String → Bool)
    (st : RunSt) (dp : CalDate × List (String × (Option String × Nat))) : RunSt :=
  if st.ok = false then st
  else
    dp.2.foldl (picmanFileStep (picmanDateFolder out dp.1) copyOk)
      { st with events := st.events ++ [Event.mkdir (picmanDateFolder out dp.1)] }

/-- The copy phase of `picman.py`'s date mode. -/
def picmanDateCopy (out : String) (copyOk : String → String → Bool)
    (st : RunSt) (fm : DateDict) : RunSt :=
  fm.foldl (picmanBucketStep out copyOk) st

/-- `picman.py`'s `copy_images_by_date` with `simple_copy=False`. -/
def picmanDateRun (fs : FS) (images : List String) (out : String)
    (copyOk : String → String → Bool) : RunSt :=
  picmanDateCopy out copyOk
    { fs := fs, events := (picmanScan fs images).2, ok := true }
    (picmanScan fs images).1

/-- `picman.py`'s `copy_images_by_date`, with its `simple_copy` flag. -/
def copy_images_by_date_picman (fs : FS) (images : List String) (out : String)
    (copyOk : String → String → Bool) (simple_copy : Bool) : RunSt :=
  if simple_copy then picmanSimpleRun fs images out copyOk
  else picmanDateRun fs images out copyOk

/-- The year ↦ month ↦ day ↦ records index of `image-organizer-v3.py`. -/
abbrev YDict : Type :=
  List (Nat × List (Nat × List (Nat × List (String × String))))

/-- `file_metadata[year][month][day].append((image_path, filename))`. -/
def v3ScanUpdate (fm : YDict) (d : CalDate) (filename image_path : String) :
    YDict :=
  let mdict := (dGet fm d.year).getD []
  let ddict := (dGet mdict d.month).getD []
  let files := (dGet ddict d.day).getD []
  dSet fm d.year (dSet mdict d.month (dSet ddict d.day (files ++ [(image_path, filename)])))

/-- The scanning phase of `image-organizer-v3.py`. -/
def v3Scan (fs : FS) (images : List String) : YDict × List Event :=
  List.foldl (scanStep v3ScanUpdate fs images.length) ([], []) (enumF 0 images)

/-- Copy one record of a day bucket of `image-organizer-v3.py`, with the
existence-probing rename. -/
def v3FileStep (df : String) (copyOk : String → String → Bool)
    (st : RunSt) (fp : String × String) : RunSt :=
  if st.ok = false then st
  else probedCopy2 df copyOk st fp.1 fp.2

/-- Process one day bucket of `image-organizer-v3.py`: create the day
folder, then copy its records. -/
def v3DayStep (mf : String) (copyOk : String → String → Bool)
    (st : RunSt) (dp : Nat × List (String × String)) : RunSt :=
  if st.ok = false then st
  else
    dp.2.foldl (v3FileStep (pjoin mf (pad2 dp.1)) copyOk)
      { st with events := st.events ++ [Event.mkdir (pjoin mf (pad2 dp.1))] }

/-- Process one month of `image-organizer-v3.py`: create the month folder,
then its day buckets. -/
def v3MonthStep (yf : String) (copyOk : String → String → Bool)
    (st : RunSt) (mp : Nat × List (Nat × List (String × String))) : RunSt :=
  if st.ok = false then st
  else
    mp.2.foldl (v3DayStep (pjoin yf (pad2 mp.1)) copyOk)
      { st with events := st.events ++ [Event.mkdir (pjoin yf (pad2 mp.1))] }

/-- Process one year of `image-organizer-v3.py`: create the year folder,
then its months. -/
def v3YearStep (out : String) (copyOk : String → String → Bool)
    (st : RunSt) (yp : Nat × List (Nat × List (Nat × List (String × String)))) : RunSt :=
  if st.ok = false then st
  else
    yp.2.foldl (v3MonthStep (pjoin out (Nat.repr yp.1)) copyOk)
      { st with events := st.events ++ [Event.mkdir (pjoin out (Nat.repr yp.1))] }

/-- The materializer of `image-organizer-v3.py`: create the year, month and
day folders, then copy each record with the existence-probing rename. -/
def v3Copy (out : String) (copyOk : String → String → Bool)
    (st : RunSt) (fm : YDict) : RunSt :=
  fm.foldl (v3YearStep out copyOk) st

/-- `image-organizer-v3.py`'s `copy_images_by_date`. -/
def copy_images_by_date_v3 (fs : FS) (images : List String) (out : String)
    (copyOk : String → String → Bool) : RunSt :=
  v3Copy out copyOk
    { fs := fs, events := (v3Scan fs images).2, ok := true }
    (v3Scan fs images).1

/-- One iteration of `main.py`'s `copy_images_by_date`: the whole body is
inside `try/except Exception`, so every failure (unreadable image, bad
date string, failed copy) is printed and the loop continues.  A present but
falsy EXIF dict / tag value silently does nothing.  The copy is the plain
`shutil.copy(image_path, date_folder)` into the folder, which preserves no
timestamps. -/
def mainStep (out : String) (copyOk : String → String → Bool) (now : CalDate)
    (fs : FS) (image_path : String) : FS × List Event :=
  match dGet fs image_path with
  | none => (fs, [Event.report image_path])
  | some img =>
    if img.decodable = false then (fs, [Event.report image_path])
    else
      match img.exif with
      | none => (fs, [])
      | some exif_data =>
        if exif_data.isEmpty then (fs, [])
        else
          match dGet exif_data (PyKey.intK 36867) with
          | none => (fs, [])
          | some date_taken =>
            if date_taken = "" then (fs, [])
            else
              match strptime_date date_taken with
              | none => (fs, [Event.report image_path])
              | some d =>
                let date_folder := pjoin out (isoDate d)
                let dest := pjoin date_folder (basename image_path)
                if copyOk image_path dest then
                  (doCopyPlain fs image_path dest now,
                   [Event.mkdir date_folder, Event.copy image_path dest false])
                else (fs, [Event.mkdir date_folder, Event.report image_path])

/-- `main.py`'s `copy_images_by_date`: fold `mainStep` over the inputs;
nothing ever escapes the per-file `try/except`. -/
def copy_images_by_date_main (fs : FS) (images : List String) (out : String)
    (copyOk : String → String → Bool) (now : CalDate) : FS × List Event :=
  match images with
  | [] => (fs, [])
  | p :: rest =>
    let s := mainStep out copyOk now fs p
    let r := copy_images_by_date_main s.1 rest out copyOk now
    (r.1, s.2 ++ r.2)

/-- The copy-failure oracle for runs where every copy succeeds. -/
def alwaysOk : String → String → Bool := fun _ _ => true

/-- Is an event a progress-callback invocation? -/
def isProg : Event → Bool
  | Event.progress _ _ => true
  | _ => false

/-- The progress events of a trace, in order. -/
def filterProg : List Event → List Event
  | [] => []
  | e :: t => if isProg e then e :: filterProg t else filterProg t

/-- The destinations of the copy events of a trace, in order. -/
def copyDsts : List Event → List String
  | [] => []
  | Event.copy _ d _ :: t => d :: copyDsts t
  | _ :: t => copyDsts t

/-- `[progress start total, progress (start+1) total, ...]`, `n` events. -/
def progSeq (start n total : Nat) : List Event :=
  match n with
  | 0 => []
  | m + 1 => Event.progress start total :: progSeq (start + 1) m total

/-- The full progress trace `1, 2, ..., n` out of `n`. -/
def progList (n : Nat) : List Event :=
  progSeq 1 n n

/-- Every key of an EXIF dict is an integer tag id — true of every dict
`_getexif()` can return. -/
def allIntKeys (ed : List (PyKey × String)) : Bool :=
  ed.all fun kv =>
    match kv.1 with
    | PyKey.intK _ => true
    | PyKey.strK _ => false

/-- `allIntKeys` of a file's EXIF dict (vacuously true without EXIF). -/
def exifIntKeys (info : FileInfo) : Bool :=
  match info.exif with
  | none => true
  | some ed => allIntKeys ed

/-- The capture-time tag (EXIF id 36867) is absent, or present with a value
`strptime` rejects. -/
def tagMissingOrBad (info : FileInfo) : Bool :=
  match info.exif with
  | none => true
  | some ed =>
    match dGet ed (PyKey.intK 36867) with
    | none => true
    | some s => (strptime_date s).isNone

/-- Every path this event touches on disk lies under directory `out`. -/
def eventUnder (out : String) : Event → Prop
  | Event.mkdir pa => ∃ r, pa = pjoin out r
  | Event.copy _ d _ => ∃ r, d = pjoin out r
  | _ => True

/-- `df` is the directory `out` itself or a path below it. -/
def dirUnder (out df : String) : Prop :=
  df = out ∨ ∃ r, df = pjoin out r

/-- `st'` extends `st`'s trace by non-progress events only. -/
def extendsNP (st st' : RunSt) : Prop :=
  ∃ t, st'.events = st.events ++ t ∧ ∀ e ∈ t, isProg e = false

/-- The never-overwrite invariant of a run state relative to the initial
file system `fs0`: every copy destination so far now exists, they are
pairwise distinct, none of them existed initially, and nothing initially
present has disappeared. -/
def NoClobber (fs0 : FS) (st : RunSt) : Prop :=
  (∀ d ∈ copyDsts st.events, fsExists st.fs d = true) ∧
  (copyDsts st.events).Nodup ∧
  (∀ d ∈ copyDsts st.events, fsExists fs0 d = false) ∧
  (∀ p, fsExists fs0 p = true → fsExists st.fs p = true)

/-- Relative to `fs0`, the state has rewritten only paths under `out`, and
every event touches only paths under `out`. -/
def Confined (fs0 : FS) (out : String) (st : RunSt) : Prop :=
  (∀ q, dGet st.fs q ≠ dGet fs0 q → ∃ r, q = pjoin out r) ∧
  (∀ e ∈ st.events, eventUnder out e)

/-- Every copy event of the trace has a source whose date resolution on the
initial file system succeeded. -/
def SrcsResolved (fs0 : FS) (st : RunSt) : Prop :=
  ∀ s d b, Event.copy s d b ∈ st.events → (get_image_metadata fs0 s).1 ≠ none

/-- Every copy event of the trace preserves metadata (`shutil.copy2`). -/
def AllPreserve (st : RunSt) : Prop :=
  ∀ s d b, Event.copy s d b ∈ st.events → b = true

/-- Every stored source path of `picman.py`'s date index resolved to a date
on `fs0`. -/
def fmResolved (fs0 : FS) (fm : DateDict) : Prop :=
  ∀ dp ∈ fm, ∀ fp ∈ dp.2, ∀ pth, fp.2.1 = some pth →
    (get_image_metadata fs0 pth).1 ≠ none

/-- A JPEG with a well-formed `DateTimeOriginal` EXIF entry (under the
integer tag id 36867, as PIL returns it) whose capture date 2020-03-05
differs from its modification date 2021-07-01. -/
def exifFile : FileInfo :=
  { decodable := true
    exif := some [(PyKey.intK 36867, "2020:03:05 10:11:12")]
    mtimeDate := ⟨2021, 7, 1⟩
    content := 1 }

/-- A file system holding just `exifFile`. -/
def exifFS : FS := [("/pics/a.jpg", exifFile)]

/-- A decodable image without EXIF whose modification date is 2020-03-05. -/
def plainFile (c : Nat) : FileInfo :=
  { decodable := true, exif := none, mtimeDate := ⟨2020, 3, 5⟩, content := c }

/-- Two same-named, same-dated source files in different directories. -/
def collideFS : FS :=
  [("/a/x.jpg", plainFile 1), ("/b/x.jpg", plainFile 2)]

/-- A source file plus a file already sitting at the destination path that
`picman.py`'s date mode will compute for it. -/
def preoccupiedFS : FS :=
  [("/src/x.jpg", plainFile 7),
   ("/out/2020/03/05/x.jpg", plainFile 9)]

/-- An input list whose second file's date bucket resolves to the path of
the first input file (which lies inside the destination tree). -/
def insideDestFS : FS :=
  [("/out/2020/03/05/x.jpg",
    { decodable := true, exif := none, mtimeDate := ⟨2021, 1, 1⟩, content := 9 }),
   ("/src2/x.jpg", plainFile 7)]

/-- An oracle under which copying `/a/x.jpg` anywhere fails. -/
def failFirst : String → String → Bool := fun src _ => src ≠ "/a/x.jpg"

/-- An oracle under which copying `/b/x.jpg` anywhere fails. -/
def failSecond : String → String → Bool := fun src _ => src ≠ "/b/x.jpg"

/-- An oracle under which every copy fails. -/
def neverOk : String → String → Bool := fun _ _ => false

/-- A decodable image whose capture-time tag holds an unparsable string. -/
def malformedFile : FileInfo :=
  { decodable := true
    exif := some [(PyKey.intK 36867, "not a date")]
    mtimeDate := ⟨2021, 7, 1⟩
    content := 3 }

/-- A file system holding just `malformedFile`. -/
def malformedFS : FS := [("/m/x.jpg", malformedFile)]

/-- A file PIL cannot decode as an image. -/
def corruptFile : FileInfo :=
  { decodable := false, exif := none, mtimeDate := ⟨2000, 1, 1⟩, content := 4 }

/-- One undecodable file next to one ordinary image. -/
def mixedFS : FS := [("/c/bad.gif", corruptFile), ("/a/x.jpg", plainFile 1)]

/-- An image with a well-formed capture-time tag, for `main.py`'s variant:
EXIF date 2020-03-05, modification date 2019-01-01. -/
def mainExifFile : FileInfo :=
  { decodable := true
    exif := some [(PyKey.intK 36867, "2020:03:05 01:02:03")]
    mtimeDate := ⟨2019, 1, 1⟩
    content := 3 }

/-- A file system holding just `mainExifFile`. -/
def mainExifFS : FS := [("/d/p.jpg", mainExifFile)]

/-! ## Association-list and path lemmas -/

theorem dGet_dSet {α β : Type} [DecidableEq α] (l : List (α × β)) (k : α)
    (v : β) (q : α) :
    dGet (dSet l k v) q = if k = q then some v else dGet l q := by
  induction l with
  | nil => simp [dSet, dGet]
  | cons hd t ih =>
    obtain ⟨a, b⟩ := hd
    by_cases hak : a = k
    · subst hak
      by_cases haq : a = q
      · subst haq
        simp [dSet, dGet]
      · simp [dSet, dGet, haq]
    · by_cases haq : a = q
      · subst haq
        have hkq : ¬ k = a := fun h => hak h.symm
        simp [dSet, dGet, hak, hkq]
      · simp [dSet, dGet, hak, haq, ih]

theorem mem_dSet {α β : Type} [DecidableEq α] {l : List (α × β)} {k : α}
    {v : β} {x : α × β} (hx : x ∈ dSet l k v) : x = (k, v) ∨ x ∈ l := by
  induction l with
  | nil => simpa [dSet] using hx
  | cons hd t ih =>
    obtain ⟨a, b⟩ := hd
    by_cases hak : a = k
    · subst hak
      simp [dSet] at hx
      rcases hx with h | h
      · left; simp [h]
      · right; simp [h]
    · simp [dSet, hak] at hx
      rcases hx with h | h
      · right; simp [h]
      · rcases ih h with h2 | h2
        · left; exact h2
        · right; simp [h2]

theorem dGet_mem {α β : Type} [DecidableEq α] {l : List (α × β)} {k : α}
    {v : β} (h : dGet l k = some v) : (k, v) ∈ l := by
  induction l with
  | nil => simp [dGet] at h
  | cons hd t ih =>
    obtain ⟨a, b⟩ := hd
    by_cases hak : a = k
    · subst hak
      simp [dGet] at h
      simp [h]
    · simp [dGet, hak] at h
      simp [ih h]

theorem any_strK_eq_false {ed : List (PyKey × String)} (h : allIntKeys ed = true)
    (s : String) : (ed.any fun kv => kv.1 == PyKey.strK s) = false := by
  induction ed with
  | nil => rfl
  | cons hd t ih =>
    obtain ⟨a, b⟩ := hd
    simp [allIntKeys] at h
    obtain ⟨h1, h2⟩ := h
    cases a with
    | intK n => simp [ih (by simpa [allIntKeys] using h2)]
    | strK z => simp at h1

theorem strAppend_assoc (a b c : String) : a ++ b ++ c = a ++ (b ++ c) := by
  apply String.ext
  simp [String.data_append]

theorem pjoin_left (a b c : String) : pjoin (pjoin a b) c = pjoin a (pjoin b c) := by
  simp only [pjoin, strAppend_assoc]

theorem probeFrom_fresh {fs : FS} {dir name ext : String} {k fuel : Nat}
    {c : String} (h : probeFrom fs dir name ext k fuel = some c) :
    fsExists fs c = false ∧ ∃ suffix, c = pjoin dir suffix := by
  induction fuel generalizing k with
  | zero => simp [probeFrom] at h
  | succ m ih =>
    rw [probeFrom] at h
    by_cases he : fsExists fs (pjoin dir (name ++ "_" ++ Nat.repr k ++ ext)) = true
    · rw [if_pos he] at h
      exact ih h
    · rw [if_neg he] at h
      simp only [Option.some.injEq] at h
      simp only [Bool.not_eq_true] at he
      subst h
      exact ⟨he, name ++ "_" ++ Nat.repr k ++ ext, rfl⟩

/-! ## Generic fold and trace-shape lemmas -/

theorem foldl_pres_mem {α σ : Type} (P : σ → Prop) (f : σ → α → σ) :
    ∀ (l : List α), (∀ s a, a ∈ l → P s → P (f s a)) →
      ∀ s, P s → P (List.foldl f s l) := by
  intro l
  induction l with
  | nil =>
    intro _ s hs
    simpa using hs
  | cons x xs ih =>
    intro hf s hs
    rw [List.foldl_cons]
    exact ih (fun s a ha => hf s a (List.mem_cons_of_mem _ ha)) _
      (hf s x (List.mem_cons_self _ _) hs)

theorem foldl_pres {α σ : Type} (P : σ → Prop) (f : σ → α → σ)
    (hf : ∀ s a, P s → P (f s a)) (l : List α) (s : σ) (hs : P s) :
    P (List.foldl f s l) :=
  foldl_pres_mem P f l (fun s a _ => hf s a) s hs

theorem extendsNP_refl (st : RunSt) : extendsNP st st :=
  ⟨[], by simp, by simp⟩

theorem extendsNP_trans {a b c : RunSt} (h1 : extendsNP a b)
    (h2 : extendsNP b c) : extendsNP a c := by
  obtain ⟨t1, e1, p1⟩ := h1
  obtain ⟨t2, e2, p2⟩ := h2
  refine ⟨t1 ++ t2, ?_, ?_⟩
  · rw [e2, e1, List.append_assoc]
  · intro e he
    rcases List.mem_append.mp he with h | h
    · exact p1 e h
    · exact p2 e h

theorem foldl_extendsNP {α : Type} (f : RunSt → α → RunSt)
    (hf : ∀ st a, extendsNP st (f st a)) :
    ∀ (l : List α) (st : RunSt), extendsNP st (List.foldl f st l) := by
  intro l
  induction l with
  | nil =>
    intro st
    exact extendsNP_refl st
  | cons x xs ih =>
    intro st
    rw [List.foldl_cons]
    exact extendsNP_trans (hf st x) (ih (f st x))

theorem filterProg_append (a b : List Event) :
    filterProg (a ++ b) = filterProg a ++ filterProg b := by
  induction a with
  | nil => rfl
  | cons e t ih =>
    by_cases he : isProg e = true
    · simp [filterProg, he, ih]
    · simp [filterProg, he, ih]

theorem filterProg_progSeq (s n t : Nat) :
    filterProg (progSeq s n t) = progSeq s n t := by
  induction n generalizing s with
  | zero => rfl
  | succ m ih => simp [progSeq, filterProg, isProg, ih]

theorem filterProg_eq_nil {t : List Event} (h : ∀ e ∈ t, isProg e = false) :
    filterProg t = [] := by
  induction t with
  | nil => rfl
  | cons e rest ih =>
    have he := h e (List.mem_cons_self _ _)
    simp [filterProg, he]
    exact ih fun x hx => h x (List.mem_cons_of_mem _ hx)

theorem copyDsts_append (a b : List Event) :
    copyDsts (a ++ b) = copyDsts a ++ copyDsts b := by
  induction a with
  | nil => rfl
  | cons e t ih => cases e <;> simp [copyDsts, ih]

theorem probedCopy2_spec (df : String) (copyOk : String → String → Bool)
    (st : RunSt) (src fname : String) :
    probedCopy2 df copyOk st src fname = { st with ok := false } ∨
    ∃ dest, fsExists st.fs dest = false ∧ (∃ r, dest = pjoin df r) ∧
      probedCopy2 df copyOk st src fname =
        { fs := doCopy2 st.fs src dest
          events := st.events ++ [Event.copy src dest true]
          ok := st.ok } := by
  unfold probedCopy2
  by_cases h0 : fsExists st.fs (pjoin df fname) = true
  · rw [if_pos h0]
    cases hp : probeFrom st.fs df (splitext fname).1 (splitext fname).2 1
        (st.fs.length + 1) with
    | none => left; rfl
    | some c =>
      obtain ⟨hfree, r, hr⟩ := probeFrom_fresh hp
      by_cases hok : copyOk src c = true
      · right
        exact ⟨c, hfree, ⟨r, hr⟩, by simp [hok]⟩
      · left
        simp [hok]
  · rw [if_neg h0]
    by_cases hok : copyOk src (pjoin df fname) = true
    · right
      refine ⟨pjoin df fname, ?_, ⟨fname, rfl⟩, by simp [hok]⟩
      simpa using h0
    · left
      simp [hok]

/-! ## File-system update lemmas -/

theorem dGet_doCopy2_self (fs : FS) (src dst : String) :
    dGet (doCopy2 fs src dst) dst =
      some ((dGet fs src).getD ⟨false, none, ⟨1970, 1, 1⟩, 0⟩) := by
  unfold doCopy2
  rw [dGet_dSet]
  simp

theorem dGet_doCopy2_ne (fs : FS) (src dst q : String) (h : ¬ dst = q) :
    dGet (doCopy2 fs src dst) q = dGet fs q := by
  unfold doCopy2
  rw [dGet_dSet]
  simp [h]

theorem fsExists_doCopy2_self (fs : FS) (src dst : String) :
    fsExists (doCopy2 fs src dst) dst = true := by
  unfold fsExists
  rw [dGet_doCopy2_self]
  rfl

theorem fsExists_doCopy2_mono {fs : FS} {q : String} (h : fsExists fs q = true)
    (src dst : String) : fsExists (doCopy2 fs src dst) q = true := by
  by_cases hd : dst = q
  · subst hd
    exact fsExists_doCopy2_self fs src dst
  · unfold fsExists at h ⊢
    rw [dGet_doCopy2_ne fs src dst q hd]
    exact h

theorem nodup_append_singleton {l : List String} {a : String}
    (h : l.Nodup) (ha : a ∉ l) : (l ++ [a]).Nodup := by
  induction l with
  | nil => simp
  | cons x xs ih =>
    rw [List.nodup_cons] at h
    obtain ⟨hx1, hx2⟩ := h
    rw [List.cons_append, List.nodup_cons]
    constructor
    · intro hmem
      rcases List.mem_append.mp hmem with hm | hm
      · exact hx1 hm
      · exact ha (by simp [List.mem_singleton.mp hm])
    · exact ih hx2 fun hh => ha (List.mem_cons_of_mem _ hh)

/-! ## The never-overwrite invariant -/

theorem NoClobber_start (fs : FS) (evs : List Event)
    (h : copyDsts evs = []) (okv : Bool) :
    NoClobber fs { fs := fs, events := evs, ok := okv } := by
  refine ⟨?_, ?_, ?_, fun p hp => hp⟩ <;> simp [h]

theorem NoClobber_ok {fs0 : FS} {st : RunSt} (h : NoClobber fs0 st) (b : Bool) :
    NoClobber fs0 { st with ok := b } :=
  h

theorem NoClobber_addNonCopy {fs0 : FS} {st : RunSt} (h : NoClobber fs0 st)
    {e : Event} (he : copyDsts [e] = []) :
    NoClobber fs0 { st with events := st.events ++ [e] } := by
  obtain ⟨h1, h2, h3, h4⟩ := h
  refine ⟨?_, ?_, ?_, h4⟩
  · intro d hd
    rw [copyDsts_append, he, List.append_nil] at hd
    exact h1 d hd
  · rw [copyDsts_append, he, List.append_nil]
    exact h2
  · intro d hd
    rw [copyDsts_append, he, List.append_nil] at hd
    exact h3 d hd

theorem NoClobber_probedCopy2 {fs0 : FS} {st : RunSt} (h : NoClobber fs0 st)
    (df : String) (copyOk : String → String → Bool) (src fname : String) :
    NoClobber fs0 (probedCopy2 df copyOk st src fname) := by
  rcases probedCopy2_spec df copyOk st src fname with heq | ⟨dest, hfree, _, heq⟩
  · rw [heq]
    exact h
  · rw [heq]
    obtain ⟨h1, h2, h3, h4⟩ := h
    have hni : dest ∉ copyDsts st.events := by
      intro hmem
      rw [h1 dest hmem] at hfree
      exact absurd hfree (by simp)
    refine ⟨?_, ?_, ?_, ?_⟩
    · intro d hd
      rw [copyDsts_append] at hd
      rcases List.mem_append.mp hd with hm | hm
      · exact fsExists_doCopy2_mono (h1 d hm) src dest
      · have hde : d = dest := by simpa [copyDsts] using hm
        rw [hde]
        exact fsExists_doCopy2_self st.fs src dest
    · rw [copyDsts_append]
      have : copyDsts [Event.copy src dest true] = [dest] := by simp [copyDsts]
      rw [this]
      exact nodup_append_singleton h2 hni
    · intro d hd
      rw [copyDsts_append] at hd
      rcases List.mem_append.mp hd with hm | hm
      · exact h3 d hm
      · have hde : d = dest := by simpa [copyDsts] using hm
        subst hde
        cases hcase : fsExists fs0 d
        · rfl
        · rw [h4 d hcase] at hfree
          exact absurd hfree (by simp)
    · intro p hp
      exact fsExists_doCopy2_mono (h4 p hp) src dest

theorem NoClobber_simpleRun (fs : FS) (images : List String) (out : String)
    (copyOk : String → String → Bool) :
    NoClobber fs (picmanSimpleRun fs images out copyOk) := by
  unfold picmanSimpleRun
  refine foldl_pres (NoClobber fs) _ ?_ _ _ (NoClobber_start fs [] rfl true)
  intro st ip hst
  unfold picmanSimpleStep
  by_cases hok : st.ok = false
  · simpa [hok] using hst
  · rw [if_neg hok]
    by_cases h2 : (probedCopy2 out copyOk st ip.2 (basename ip.2)).ok = true
    · rw [if_pos h2]
      exact NoClobber_addNonCopy
        (NoClobber_probedCopy2 hst out copyOk ip.2 (basename ip.2)) rfl
    · rw [if_neg h2]
      exact NoClobber_probedCopy2 hst out copyOk ip.2 (basename ip.2)

theorem NoClobber_v3FileStep {fs0 : FS} {df : String}
    {copyOk : String → String → Bool} {st : RunSt} (h : NoClobber fs0 st)
    (fp : String × String) : NoClobber fs0 (v3FileStep df copyOk st fp) := by
  unfold v3FileStep
  by_cases hok : st.ok = false
  · simpa [hok] using h
  · rw [if_neg hok]
    exact NoClobber_probedCopy2 h df copyOk fp.1 fp.2

theorem NoClobber_v3DayStep {fs0 : FS} {mf : String}
    {copyOk : String → String → Bool} {st : RunSt} (h : NoClobber fs0 st)
    (dp : Nat × List (String × String)) :
    NoClobber fs0 (v3DayStep mf copyOk st dp) := by
  unfold v3DayStep
  by_cases hok : st.ok = false
  · simpa [hok] using h
  · rw [if_neg hok]
    refine foldl_pres (NoClobber fs0) _ ?_ _ _ (NoClobber_addNonCopy h rfl)
    intro s fp hs
    exact NoClobber_v3FileStep hs fp

theorem NoClobber_v3MonthStep {fs0 : FS} {yf : String}
    {copyOk : String → String → Bool} {st : RunSt} (h : NoClobber fs0 st)
    (mp : Nat × List (Nat × List (String × String))) :
    NoClobber fs0 (v3MonthStep yf copyOk st mp) := by
  unfold v3MonthStep
  by_cases hok : st.ok = false
  · simpa [hok] using h
  · rw [if_neg hok]
    refine foldl_pres (NoClobber fs0) _ ?_ _ _ (NoClobber_addNonCopy h rfl)
    intro s dp hs
    exact NoClobber_v3DayStep hs dp

theorem NoClobber_v3Run (fs : FS) (images : List String) (out : String)
    (copyOk : String → String → Bool) :
    NoClobber fs (copy_images_by_date_v3 fs images out copyOk) := by
  unfold copy_images_by_date_v3 v3Copy
  refine foldl_pres (NoClobber fs) _ ?_ _ _ ?_
  · intro st yp hst
    unfold v3YearStep
    by_cases hok : st.ok = false
    · simpa [hok] using hst
    · rw [if_neg hok]
      refine foldl_pres (NoClobber fs) _ ?_ _ _ (NoClobber_addNonCopy hst rfl)
      intro s mp hs
      exact NoClobber_v3MonthStep hs mp
  · refine NoClobber_start fs (v3Scan fs images).2 ?_ true
    have : ∀ (l : List String) (k : Nat) (acc : YDict × List Event),
        copyDsts acc.2 = [] →
        copyDsts (List.foldl (scanStep v3ScanUpdate fs images.length) acc
          (enumF k l)).2 = [] := by
      intro l
      induction l with
      | nil =>
        intro k acc hacc
        simpa [enumF] using hacc
      | cons x xs ih =>
        intro k acc hacc
        rw [enumF, List.foldl_cons]
        refine ih (k + 1) _ ?_
        simp [scanStep, copyDsts_append, hacc, copyDsts]
    exact this images 0 ([], []) rfl

/-! ## Trace shape of the scanning and copy phases -/

theorem scan_events {δ : Type} (upd : δ → CalDate → String → String → δ)
    (fs : FS) (total : Nat) :
    ∀ (l : List String) (k : Nat) (acc : δ × List Event),
      (List.foldl (scanStep upd fs total) acc (enumF k l)).2 =
        acc.2 ++ progSeq (k + 1) l.length total := by
  intro l
  induction l with
  | nil =>
    intro k acc
    simp [enumF, progSeq]
  | cons x xs ih =>
    intro k acc
    rw [enumF, List.foldl_cons, ih]
    simp [scanStep, progSeq, List.append_assoc]

theorem picmanScan_events (fs : FS) (images : List String) :
    (picmanScan fs images).2 = progList images.length := by
  unfold picmanScan progList
  rw [scan_events]
  simp

theorem v3Scan_events (fs : FS) (images : List String) :
    (v3Scan fs images).2 = progList images.length := by
  unfold v3Scan progList
  rw [scan_events]
  simp

theorem extendsNP_probedCopy2 (df : String) (copyOk : String → String → Bool)
    (st : RunSt) (src fname : String) :
    extendsNP st (probedCopy2 df copyOk st src fname) := by
  rcases probedCopy2_spec df copyOk st src fname with heq | ⟨dest, _, _, heq⟩
  · rw [heq]
    exact ⟨[], by simp, by simp⟩
  · rw [heq]
    exact ⟨[Event.copy src dest true], rfl, by simp [isProg]⟩

theorem extendsNP_picmanFileStep (folder : String)
    (copyOk : String → String → Bool) (st : RunSt)
    (fp : String × (Option String × Nat)) :
    extendsNP st (picmanFileStep folder copyOk st fp) := by
  unfold picmanFileStep
  by_cases hok : st.ok = false
  · rw [if_pos hok]
    exact extendsNP_refl st
  · rw [if_neg hok]
    cases hsrc : fp.2.1 with
    | none => exact ⟨[], by simp, by simp⟩
    | some src =>
      by_cases hc : copyOk src (picmanDest folder fp.1 fp.2.2) = true
      · refine ⟨[Event.copy src (picmanDest folder fp.1 fp.2.2) true], ?_,
          by simp [isProg]⟩
        simp [hc]
      · refine ⟨[], ?_, by simp⟩
        simp [hc]

theorem extendsNP_picmanBucketStep (out : String)
    (copyOk : String → String → Bool) (st : RunSt)
    (dp : CalDate × List (String × (Option String × Nat))) :
    extendsNP st (picmanBucketStep out copyOk st dp) := by
  unfold picmanBucketStep
  by_cases hok : st.ok = false
  · rw [if_pos hok]
    exact extendsNP_refl st
  · rw [if_neg hok]
    refine extendsNP_trans
      (b := { st with events := st.events ++ [Event.mkdir (picmanDateFolder out dp.1)] })
      ⟨[Event.mkdir (picmanDateFolder out dp.1)], rfl, by simp [isProg]⟩ ?_
    exact foldl_extendsNP _ (fun s fp => extendsNP_picmanFileStep _ copyOk s fp) _ _

theorem extendsNP_picmanDateCopy (out : String)
    (copyOk : String → String → Bool) (fm : DateDict) (st : RunSt) :
    extendsNP st (picmanDateCopy out copyOk st fm) :=
  foldl_extendsNP _ (fun s dp => extendsNP_picmanBucketStep out copyOk s dp) fm st

theorem extendsNP_v3FileStep (df : String) (copyOk : String → String → Bool)
    (st : RunSt) (fp : String × String) :
    extendsNP st (v3FileStep df copyOk st fp) := by
  unfold v3FileStep
  by_cases hok : st.ok = false
  · rw [if_pos hok]
    exact extendsNP_refl st
  · rw [if_neg hok]
    exact extendsNP_probedCopy2 df copyOk st fp.1 fp.2

theorem extendsNP_v3DayStep (mf : String) (copyOk : String → String → Bool)
    (st : RunSt) (dp : Nat × List (String × String)) :
    extendsNP st (v3DayStep mf copyOk st dp) := by
  unfold v3DayStep
  by_cases hok : st.ok = false
  · rw [if_pos hok]
    exact extendsNP_refl st
  · rw [if_neg hok]
    refine extendsNP_trans
      (b := { st with events := st.events ++ [Event.mkdir (pjoin mf (pad2 dp.1))] })
      ⟨[Event.mkdir (pjoin mf (pad2 dp.1))], rfl, by simp [isProg]⟩ ?_
    exact foldl_extendsNP _ (fun s fp => extendsNP_v3FileStep _ copyOk s fp) _ _

theorem extendsNP_v3MonthStep (yf : String) (copyOk : String → String → Bool)
    (st : RunSt) (mp : Nat × List (Nat × List (String × String))) :
    extendsNP st (v3MonthStep yf copyOk st mp) := by
  unfold v3MonthStep
  by_cases hok : st.ok = false
  · rw [if_pos hok]
    exact extendsNP_refl st
  · rw [if_neg hok]
    refine extendsNP_trans
      (b := { st with events := st.events ++ [Event.mkdir (pjoin yf (pad2 mp.1))] })
      ⟨[Event.mkdir (pjoin yf (pad2 mp.1))], rfl, by simp [isProg]⟩ ?_
    exact foldl_extendsNP _ (fun s dp => extendsNP_v3DayStep _ copyOk s dp) _ _

theorem extendsNP_v3YearStep (out : String) (copyOk : String → String → Bool)
    (st : RunSt) (yp : Nat × List (Nat × List (Nat × List (String × String)))) :
    extendsNP st (v3YearStep out copyOk st yp) := by
  unfold v3YearStep
  by_cases hok : st.ok = false
  · rw [if_pos hok]
    exact extendsNP_refl st
  · rw [if_neg hok]
    refine extendsNP_trans
      (b := { st with events := st.events ++ [Event.mkdir (pjoin out (Nat.repr yp.1))] })
      ⟨[Event.mkdir (pjoin out (Nat.repr yp.1))], rfl, by simp [isProg]⟩ ?_
    exact foldl_extendsNP _ (fun s mp => extendsNP_v3MonthStep _ copyOk s mp) _ _

theorem extendsNP_v3Copy (out : String) (copyOk : String → String → Bool)
    (fm : YDict) (st : RunSt) : extendsNP st (v3Copy out copyOk st fm) :=
  foldl_extendsNP _ (fun s yp => extendsNP_v3YearStep out copyOk s yp) fm st

theorem picmanDateRun_events_split (fs : FS) (images : List String)
    (out : String) (copyOk : String → String → Bool) :
    ∃ t, (picmanDateRun fs images out copyOk).events =
        progList images.length ++ t ∧ ∀ e ∈ t, isProg e = false := by
  unfold picmanDateRun
  obtain ⟨t, ht, hp⟩ := extendsNP_picmanDateCopy out copyOk (picmanScan fs images).1
    { fs := fs, events := (picmanScan fs images).2, ok := true }
  refine ⟨t, ?_, hp⟩
  rw [ht]
  rw [show ({ fs := fs, events := (picmanScan fs images).2, ok := true } : RunSt).events
        = (picmanScan fs images).2 from rfl,
      picmanScan_events]

theorem v3Run_events_split (fs : FS) (images : List String)
    (out : String) (copyOk : String → String → Bool) :
    ∃ t, (copy_images_by_date_v3 fs images out copyOk).events =
        progList images.length ++ t ∧ ∀ e ∈ t, isProg e = false := by
  unfold copy_images_by_date_v3
  obtain ⟨t, ht, hp⟩ := extendsNP_v3Copy out copyOk (v3Scan fs images).1
    { fs := fs, events := (v3Scan fs images).2, ok := true }
  refine ⟨t, ?_, hp⟩
  rw [ht]
  rw [show ({ fs := fs, events := (v3Scan fs images).2, ok := true } : RunSt).events
        = (v3Scan fs images).2 from rfl,
      v3Scan_events]

/-! ## Progress in `picman.py`'s simple mode -/

theorem simpleStep_notOk {out : String} {total : Nat}
    {copyOk : String → String → Bool} {st : RunSt} (h : st.ok = false)
    (ip : Nat × String) : picmanSimpleStep out total copyOk st ip = st := by
  unfold picmanSimpleStep
  rw [if_pos h]

theorem simpleFold_notOk {out : String} {total : Nat}
    {copyOk : String → String → Bool} (l : List (Nat × String)) {st : RunSt}
    (h : st.ok = false) :
    List.foldl (picmanSimpleStep out total copyOk) st l = st := by
  induction l with
  | nil => rfl
  | cons x xs ih =>
    rw [List.foldl_cons, simpleStep_notOk h]
    exact ih

theorem simpleFold_progress {out : String} {copyOk : String → String → Bool}
    (total : Nat) :
    ∀ (l : List String) (k : Nat) (st : RunSt), st.ok = true →
      (List.foldl (picmanSimpleStep out total copyOk) st (enumF k l)).ok = true →
      filterProg (List.foldl (picmanSimpleStep out total copyOk) st
        (enumF k l)).events = filterProg st.events ++ progSeq (k + 1) l.length total := by
  intro l
  induction l with
  | nil =>
    intro k st h1 _
    simp [enumF, progSeq]
  | cons x xs ih =>
    intro k st h1 hfin
    rw [enumF, List.foldl_cons] at hfin ⊢
    rcases probedCopy2_spec out copyOk st x (basename x) with heq | ⟨dest, _, _, heq⟩
    · have hstep : picmanSimpleStep out total copyOk st (k, x) =
          { st with ok := false } := by
        simp [picmanSimpleStep, h1, heq]
      rw [hstep] at hfin
      rw [simpleFold_notOk _ rfl] at hfin
      exact absurd hfin (by simp)
    · have hstep : picmanSimpleStep out total copyOk st (k, x) =
          { fs := doCopy2 st.fs x dest
            events := st.events ++ [Event.copy x dest true] ++
              [Event.progress (k + 1) total]
            ok := st.ok } := by
        simp [picmanSimpleStep, h1, heq]
      rw [hstep] at hfin ⊢
      rw [ih (k + 1) _ (by simp [h1]) hfin]
      simp [filterProg_append, filterProg, isProg, progSeq, List.append_assoc]

theorem picmanSimpleRun_progress (fs : FS) (images : List String)
    (out : String) (copyOk : String → String → Bool)
    (h : (picmanSimpleRun fs images out copyOk).ok = true) :
    filterProg (picmanSimpleRun fs images out copyOk).events =
      progList images.length := by
  unfold picmanSimpleRun at h ⊢
  rw [simpleFold_progress images.length images 0 _ rfl h]
  simp [filterProg, progList]

/-! ## Sources of date-mode copies resolved to a date -/

theorem scanStep_fst {δ : Type} (upd : δ → CalDate → String → String → δ)
    (fs : FS) (total : Nat) (acc : δ × List Event) (ip : Nat × String) :
    (scanStep upd fs total acc ip).1 =
      match (get_image_metadata fs ip.2).1 with
      | some d => upd acc.1 d (get_image_metadata fs ip.2).2 ip.2
      | none => acc.1 := by
  simp [scanStep]

theorem copy_not_mem_progSeq (s d : String) (b : Bool) :
    ∀ (n a t : Nat), Event.copy s d b ∉ progSeq a n t := by
  intro n
  induction n with
  | zero =>
    intro a t h
    simp [progSeq] at h
  | succ m ih =>
    intro a t h
    rw [progSeq] at h
    rcases List.mem_cons.mp h with h1 | h1
    · simp at h1
    · exact ih (a + 1) t h1

theorem fmResolved_inner {fs0 : FS} {fm : DateDict} (h : fmResolved fs0 fm)
    {d : CalDate} {fp : String × (Option String × Nat)}
    (hfp : fp ∈ (dGet fm d).getD []) {q : String} (hq : fp.2.1 = some q) :
    (get_image_metadata fs0 q).1 ≠ none := by
  cases hin : dGet fm d with
  | none =>
    rw [hin] at hfp
    simp at hfp
  | some i0 =>
    rw [hin] at hfp
    exact h (d, i0) (dGet_mem hin) fp hfp q hq

theorem fmResolved_update {fs0 : FS} {fm : DateDict} (h : fmResolved fs0 fm)
    {d : CalDate} {name pth : String}
    (hp : (get_image_metadata fs0 pth).1 ≠ none) :
    fmResolved fs0 (picmanScanUpdate fm d name pth) := by
  intro dp hdp fp hfp q hq
  unfold picmanScanUpdate at hdp
  by_cases hcond : (picmanScanSlot fm d name).1 = none ∨ (picmanScanSlot fm d name).2 > 0
  · rw [if_pos hcond] at hdp
    rcases mem_dSet hdp with hdq | hdq
    · rw [hdq] at hfp
      rcases mem_dSet hfp with hfq | hfq
      · rw [hfq] at hq
        simp at hq
        rw [← hq]
        exact hp
      · exact fmResolved_inner h hfq hq
    · exact h dp hdq fp hfp q hq
  · rw [if_neg hcond] at hdp
    rcases mem_dSet hdp with hdq | hdq
    · rw [hdq] at hfp
      rcases mem_dSet hfp with hfq | hfq
      · rw [hfq] at hq
        simp only at hq
        cases hsl : dGet ((dGet fm d).getD []) name with
        | none =>
          rw [picmanScanSlot, hsl] at hq
          simp at hq
        | some s =>
          have hslot : picmanScanSlot fm d name = s := by
            rw [picmanScanSlot, hsl]
            rfl
          rw [hslot] at hq
          exact fmResolved_inner h (dGet_mem hsl) hq
      · exact fmResolved_inner h hfq hq
    · exact h dp hdq fp hfp q hq

theorem fmResolved_scan (fs : FS) (images : List String) :
    fmResolved fs (picmanScan fs images).1 := by
  unfold picmanScan
  have main : ∀ (l : List String) (k : Nat) (acc : DateDict × List Event),
      fmResolved fs acc.1 →
      fmResolved fs (List.foldl (scanStep picmanScanUpdate fs images.length)
        acc (enumF k l)).1 := by
    intro l
    induction l with
    | nil =>
      intro k acc h
      simpa [enumF] using h
    | cons x xs ih =>
      intro k acc h
      rw [enumF, List.foldl_cons]
      refine ih (k + 1) _ ?_
      rw [scanStep_fst]
      cases hmd : (get_image_metadata fs (k, x).2).1 with
      | none => exact h
      | some d => exact fmResolved_update h (by rw [hmd]; simp)
  refine main images 0 ([], []) ?_
  intro dp hdp
  simp at hdp

theorem SrcsResolved_picmanFileStep {fs0 : FS} {folder : String}
    {copyOk : String → String → Bool} {st : RunSt} (h : SrcsResolved fs0 st)
    {fp : String × (Option String × Nat)}
    (hfp : ∀ q, fp.2.1 = some q → (get_image_metadata fs0 q).1 ≠ none) :
    SrcsResolved fs0 (picmanFileStep folder copyOk st fp) := by
  unfold picmanFileStep
  by_cases hok : st.ok = false
  · rw [if_pos hok]
    exact h
  · rw [if_neg hok]
    cases hsrc : fp.2.1 with
    | none => exact h
    | some src =>
      by_cases hc : copyOk src (picmanDest folder fp.1 fp.2.2) = true
      · intro s d b hmem
        simp only [hc, if_true] at hmem
        rcases List.mem_append.mp hmem with hm | hm
        · exact h s d b hm
        · simp at hm
          rw [hm.1]
          exact hfp src hsrc
      · intro s d b hmem
        simp only [hc, if_false] at hmem
        exact h s d b hmem

theorem SrcsResolved_picmanBucketStep {fs0 : FS} {out : String}
    {copyOk : String → String → Bool} {st : RunSt} (h : SrcsResolved fs0 st)
    {dp : CalDate × List (String × (Option String × Nat))}
    (hdp : ∀ fp ∈ dp.2, ∀ q, fp.2.1 = some q →
      (get_image_metadata fs0 q).1 ≠ none) :
    SrcsResolved fs0 (picmanBucketStep out copyOk st dp) := by
  unfold picmanBucketStep
  by_cases hok : st.ok = false
  · rw [if_pos hok]
    exact h
  · rw [if_neg hok]
    refine foldl_pres_mem (SrcsResolved fs0) _ dp.2 ?_ _ ?_
    · intro s fp hfpm hs
      exact SrcsResolved_picmanFileStep hs (hdp fp hfpm)
    · intro s d b hmem
      rcases List.mem_append.mp hmem with hm | hm
      · exact h s d b hm
      · simp at hm

theorem SrcsResolved_picmanDateRun (fs : FS) (images : List String)
    (out : String) (copyOk : String → String → Bool) :
    SrcsResolved fs (picmanDateRun fs images out copyOk) := by
  unfold picmanDateRun picmanDateCopy
  have hfm := fmResolved_scan fs images
  refine foldl_pres_mem (SrcsResolved fs) _ _ ?_ _ ?_
  · intro s dp hdp hs
    exact SrcsResolved_picmanBucketStep hs (fun fp hfp q hq => hfm dp hdp fp hfp q hq)
  · intro s d b hmem
    rw [show ({ fs := fs, events := (picmanScan fs images).2, ok := true } :
          RunSt).events = (picmanScan fs images).2 from rfl,
        picmanScan_events] at hmem
    exact absurd hmem (copy_not_mem_progSeq s d b images.length 1 images.length)

/-! ## Metadata preservation of the `copy2`-based runs -/

theorem AllPreserve_probedCopy2 {st : RunSt} (h : AllPreserve st)
    (df : String) (copyOk : String → String → Bool) (src fname : String) :
    AllPreserve (probedCopy2 df copyOk st src fname) := by
  rcases probedCopy2_spec df copyOk st src fname with heq | ⟨dest, _, _, heq⟩
  · rw [heq]
    exact h
  · rw [heq]
    intro s d b hmem
    rcases List.mem_append.mp hmem with hm | hm
    · exact h s d b hm
    · simp at hm
      exact hm.2.2

theorem AllPreserve_addNonCopy {st : RunSt} (h : AllPreserve st) {e : Event}
    (he : ∀ s d b, e ≠ Event.copy s d b) :
    AllPreserve { st with events := st.events ++ [e] } := by
  intro s d b hmem
  rcases List.mem_append.mp hmem with hm | hm
  · exact h s d b hm
  · rw [List.mem_singleton] at hm
    exact absurd hm.symm (he s d b)

theorem AllPreserve_picmanFileStep {folder : String}
    {copyOk : String → String → Bool} {st : RunSt} (h : AllPreserve st)
    (fp : String × (Option String × Nat)) :
    AllPreserve (picmanFileStep folder copyOk st fp) := by
  unfold picmanFileStep
  by_cases hok : st.ok = false
  · rw [if_pos hok]
    exact h
  · rw [if_neg hok]
    cases hsrc : fp.2.1 with
    | none => exact h
    | some src =>
      by_cases hc : copyOk src (picmanDest folder fp.1 fp.2.2) = true
      · intro s d b hmem
        simp only [hc, if_true] at hmem
        rcases List.mem_append.mp hmem with hm | hm
        · exact h s d b hm
        · simp at hm
          exact hm.2.2
      · intro s d b hmem
        simp only [hc, if_false] at hmem
        exact h s d b hmem

theorem AllPreserve_scanState (fs : FS) (images : List String)
    (evs : List Event) (h : evs = progList images.length) (okv : Bool) :
    AllPreserve { fs := fs, events := evs, ok := okv } := by
  intro s d b hmem
  rw [show ({ fs := fs, events := evs, ok := okv } : RunSt).events = evs from rfl,
    h] at hmem
  exact absurd hmem (copy_not_mem_progSeq s d b images.length 1 images.length)

theorem AllPreserve_picmanDateRun (fs : FS) (images : List String)
    (out : String) (copyOk : String → String → Bool) :
    AllPreserve (picmanDateRun fs images out copyOk) := by
  unfold picmanDateRun picmanDateCopy
  refine foldl_pres (AllPreserve) _ ?_ _ _
    (AllPreserve_scanState fs images _ (picmanScan_events fs images) true)
  intro s dp hs
  unfold picmanBucketStep
  by_cases hok : s.ok = false
  · rw [if_pos hok]
    exact hs
  · rw [if_neg hok]
    refine foldl_pres (AllPreserve) _ ?_ _ _
      (AllPreserve_addNonCopy hs (by intro a b c hh; cases hh))
    intro s2 fp hs2
    exact AllPreserve_picmanFileStep hs2 fp

theorem AllPreserve_picmanSimpleRun (fs : FS) (images : List String)
    (out : String) (copyOk : String → String → Bool) :
    AllPreserve (picmanSimpleRun fs images out copyOk) := by
  unfold picmanSimpleRun
  refine foldl_pres (AllPreserve) _ ?_ _ _ (by intro s d b hmem; simp at hmem)
  intro st ip hst
  unfold picmanSimpleStep
  by_cases hok : st.ok = false
  · rw [if_pos hok]
    exact hst
  · rw [if_neg hok]
    by_cases h2 : (probedCopy2 out copyOk st ip.2 (basename ip.2)).ok = true
    · rw [if_pos h2]
      exact AllPreserve_addNonCopy
        (AllPreserve_probedCopy2 hst out copyOk ip.2 (basename ip.2))
        (by intro a b c hh; cases hh)
    · rw [if_neg h2]
      exact AllPreserve_probedCopy2 hst out copyOk ip.2 (basename ip.2)

theorem AllPreserve_v3Run (fs : FS) (images : List String)
    (out : String) (copyOk : String → String → Bool) :
    AllPreserve (copy_images_by_date_v3 fs images out copyOk) := by
  unfold copy_images_by_date_v3 v3Copy
  refine foldl_pres (AllPreserve) _ ?_ _ _
    (AllPreserve_scanState fs images _ (v3Scan_events fs images) true)
  intro st yp hst
  unfold v3YearStep
  by_cases hok : st.ok = false
  · rw [if_pos hok]
    exact hst
  · rw [if_neg hok]
    refine foldl_pres (AllPreserve) _ ?_ _ _
      (AllPreserve_addNonCopy hst (by intro a b c hh; cases hh))
    intro s1 mp hs1
    unfold v3MonthStep
    by_cases hok1 : s1.ok = false
    · rw [if_pos hok1]
      exact hs1
    · rw [if_neg hok1]
      refine foldl_pres (AllPreserve) _ ?_ _ _
        (AllPreserve_addNonCopy hs1 (by intro a b c hh; cases hh))
      intro s2 dp hs2
      unfold v3DayStep
      by_cases hok2 : s2.ok = false
      · rw [if_pos hok2]
        exact hs2
      · rw [if_neg hok2]
        refine foldl_pres (AllPreserve) _ ?_ _ _
          (AllPreserve_addNonCopy hs2 (by intro a b c hh; cases hh))
        intro s3 fp hs3
        unfold v3FileStep
        by_cases hok3 : s3.ok = false
        · rw [if_pos hok3]
          exact hs3
        · rw [if_neg hok3]
          exact AllPreserve_probedCopy2 hs3 _ copyOk fp.1 fp.2

/-! ## Writes confined to the destination root -/

theorem pjoin_under {out df : String} (h : dirUnder out df) (x : String) :
    ∃ r, pjoin df x = pjoin out r := by
  rcases h with rfl | ⟨r, hr⟩
  · exact ⟨x, rfl⟩
  · rw [hr]
    exact ⟨pjoin r x, pjoin_left out r x⟩

theorem dirUnder_pjoin {out df : String} (h : dirUnder out df) (x : String) :
    dirUnder out (pjoin df x) :=
  Or.inr (pjoin_under h x)

theorem dateFolder_ex (out : String) (d : CalDate) :
    ∃ r, picmanDateFolder out d = pjoin out r := by
  unfold picmanDateFolder
  exact pjoin_under (dirUnder_pjoin (dirUnder_pjoin (Or.inl rfl) _) _) _

theorem picmanDest_under {out folder : String} (h : dirUnder out folder)
    (fname : String) (k : Nat) :
    ∃ r, picmanDest folder fname k = pjoin out r := by
  unfold picmanDest
  by_cases hk : k > 1
  · rw [if_pos hk]
    exact pjoin_under h _
  · rw [if_neg hk]
    exact pjoin_under h _

theorem eventUnder_progSeq (out : String) :
    ∀ (n a t : Nat) (e : Event), e ∈ progSeq a n t → eventUnder out e := by
  intro n
  induction n with
  | zero =>
    intro a t e he
    simp [progSeq] at he
  | succ m ih =>
    intro a t e he
    rw [progSeq] at he
    rcases List.mem_cons.mp he with h1 | h1
    · rw [h1]
      trivial
    · exact ih (a + 1) t e h1

theorem Confined_addEvent {fs0 : FS} {out : String} {st : RunSt}
    (h : Confined fs0 out st) {e : Event} (he : eventUnder out e) :
    Confined fs0 out { st with events := st.events ++ [e] } := by
  obtain ⟨h1, h2⟩ := h
  refine ⟨h1, ?_⟩
  intro x hx
  rcases List.mem_append.mp hx with hm | hm
  · exact h2 x hm
  · rw [List.mem_singleton] at hm
    rw [hm]
    exact he

theorem Confined_probedCopy2 {fs0 : FS} {out : String} {st : RunSt}
    (h : Confined fs0 out st) {df : String} (hdf : dirUnder out df)
    (copyOk : String → String → Bool) (src fname : String) :
    Confined fs0 out (probedCopy2 df copyOk st src fname) := by
  rcases probedCopy2_spec df copyOk st src fname with heq | ⟨dest, _, ⟨r, hr⟩, heq⟩
  · rw [heq]
    exact h
  · rw [heq]
    obtain ⟨h1, h2⟩ := h
    have hdest : ∃ rr, dest = pjoin out rr := by
      rw [hr]
      exact pjoin_under hdf r
    obtain ⟨rr, hrr⟩ := hdest
    refine ⟨?_, ?_⟩
    · intro q hq
      by_cases hqd : dest = q
      · rw [← hqd]
        exact ⟨rr, hrr⟩
      · have hq' : dGet (doCopy2 st.fs src dest) q ≠ dGet fs0 q := hq
        rw [dGet_doCopy2_ne _ _ _ _ hqd] at hq'
        exact h1 q hq'
    · intro e he
      have he' : e ∈ st.events ++ [Event.copy src dest true] := he
      rcases List.mem_append.mp he' with hm | hm
      · exact h2 e hm
      · rw [List.mem_singleton] at hm
        rw [hm]
        exact ⟨rr, hrr⟩

theorem picmanFileStep_spec (folder : String) (copyOk : String → String → Bool)
    (st : RunSt) (fp : String × (Option String × Nat)) :
    (∃ b, picmanFileStep folder copyOk st fp = { st with ok := b }) ∨
    ∃ src, fp.2.1 = some src ∧
      picmanFileStep folder copyOk st fp =
        { fs := doCopy2 st.fs src (picmanDest folder fp.1 fp.2.2)
          events := st.events ++
            [Event.copy src (picmanDest folder fp.1 fp.2.2) true]
          ok := st.ok } := by
  unfold picmanFileStep
  by_cases hok : st.ok = false
  · rw [if_pos hok]
    left
    exact ⟨st.ok, rfl⟩
  · rw [if_neg hok]
    cases hsrc : fp.2.1 with
    | none =>
      left
      exact ⟨false, rfl⟩
    | some src =>
      by_cases hc : copyOk src (picmanDest folder fp.1 fp.2.2) = true
      · right
        exact ⟨src, rfl, by simp [hc]⟩
      · left
        exact ⟨false, by simp [hc]⟩

theorem Confined_picmanFileStep {fs0 : FS} {out folder : String}
    (hf : dirUnder out folder) {copyOk : String → String → Bool} {st : RunSt}
    (h : Confined fs0 out st) (fp : String × (Option String × Nat)) :
    Confined fs0 out (picmanFileStep folder copyOk st fp) := by
  rcases picmanFileStep_spec folder copyOk st fp with ⟨b, heq⟩ | ⟨src, _, heq⟩
  · rw [heq]
    exact h
  · rw [heq]
    obtain ⟨h1, h2⟩ := h
    obtain ⟨r, hr⟩ := picmanDest_under hf fp.1 fp.2.2
    refine ⟨?_, ?_⟩
    · intro q hq
      by_cases hqd : picmanDest folder fp.1 fp.2.2 = q
      · rw [← hqd]
        exact ⟨r, hr⟩
      · have hq' : dGet (doCopy2 st.fs src (picmanDest folder fp.1 fp.2.2)) q ≠
            dGet fs0 q := hq
        rw [dGet_doCopy2_ne _ _ _ _ hqd] at hq'
        exact h1 q hq'
    · intro e he
      have he' : e ∈ st.events ++
          [Event.copy src (picmanDest folder fp.1 fp.2.2) true] := he
      rcases List.mem_append.mp he' with hm | hm
      · exact h2 e hm
      · rw [List.mem_singleton] at hm
        rw [hm]
        exact ⟨r, hr⟩

theorem Confined_picmanBucketStep {fs0 : FS} {out : String}
    {copyOk : String → String → Bool} {st : RunSt} (h : Confined fs0 out st)
    (dp : CalDate × List (String × (Option String × Nat))) :
    Confined fs0 out (picmanBucketStep out copyOk st dp) := by
  unfold picmanBucketStep
  by_cases hok : st.ok = false
  · rw [if_pos hok]
    exact h
  · rw [if_neg hok]
    refine foldl_pres (Confined fs0 out) _ ?_ _ _
      (Confined_addEvent h (dateFolder_ex out dp.1))
    intro s fp hs
    exact Confined_picmanFileStep (Or.inr (dateFolder_ex out dp.1)) hs fp

theorem Confined_picmanDateRun (fs : FS) (images : List String) (out : String)
    (copyOk : String → String → Bool) :
    Confined fs out (picmanDateRun fs images out copyOk) := by
  unfold picmanDateRun picmanDateCopy
  refine foldl_pres (Confined fs out) _ ?_ _ _ ?_
  · intro s dp hs
    exact Confined_picmanBucketStep hs dp
  · refine ⟨fun q hq => absurd rfl hq, ?_⟩
    intro e he
    have he' : e ∈ (picmanScan fs images).2 := he
    rw [picmanScan_events] at he'
    exact eventUnder_progSeq out images.length 1 images.length e he'

theorem Confined_picmanSimpleRun (fs : FS) (images : List String) (out : String)
    (copyOk : String → String → Bool) :
    Confined fs out (picmanSimpleRun fs images out copyOk) := by
  unfold picmanSimpleRun
  refine foldl_pres (Confined fs out) _ ?_ _ _
    ⟨fun q hq => absurd rfl hq, fun e he => by simp at he⟩
  intro st ip hst
  unfold picmanSimpleStep
  by_cases hok : st.ok = false
  · rw [if_pos hok]
    exact hst
  · rw [if_neg hok]
    by_cases h2 : (probedCopy2 out copyOk st ip.2 (basename ip.2)).ok = true
    · rw [if_pos h2]
      exact Confined_addEvent
        (Confined_probedCopy2 hst (Or.inl rfl) copyOk ip.2 (basename ip.2))
        trivial
    · rw [if_neg h2]
      exact Confined_probedCopy2 hst (Or.inl rfl) copyOk ip.2 (basename ip.2)

theorem Confined_v3Run (fs : FS) (images : List String) (out : String)
    (copyOk : String → String → Bool) :
    Confined fs out (copy_images_by_date_v3 fs images out copyOk) := by
  unfold copy_images_by_date_v3 v3Copy
  refine foldl_pres (Confined fs out) _ ?_ _ _ ?_
  · intro st yp hst
    unfold v3YearStep
    by_cases hok : st.ok = false
    · rw [if_pos hok]
      exact hst
    · rw [if_neg hok]
      refine foldl_pres (Confined fs out) _ ?_ _ _
        (Confined_addEvent hst ⟨Nat.repr yp.1, rfl⟩)
      intro s1 mp hs1
      unfold v3MonthStep
      by_cases hok1 : s1.ok = false
      · rw [if_pos hok1]
        exact hs1
      · rw [if_neg hok1]
        refine foldl_pres (Confined fs out) _ ?_ _ _
          (Confined_addEvent hs1
            (pjoin_under (dirUnder_pjoin (Or.inl rfl) (Nat.repr yp.1)) (pad2 mp.1)))
        intro s2 dp hs2
        unfold v3DayStep
        by_cases hok2 : s2.ok = false
        · rw [if_pos hok2]
          exact hs2
        · rw [if_neg hok2]
          refine foldl_pres (Confined fs out) _ ?_ _ _
            (Confined_addEvent hs2
              (pjoin_under (dirUnder_pjoin (dirUnder_pjoin (Or.inl rfl)
                (Nat.repr yp.1)) (pad2 mp.1)) (pad2 dp.1)))
          intro s3 fp hs3
          unfold v3FileStep
          by_cases hok3 : s3.ok = false
          · rw [if_pos hok3]
            exact hs3
          · rw [if_neg hok3]
            exact Confined_probedCopy2 hs3
              (dirUnder_pjoin (dirUnder_pjoin (dirUnder_pjoin (Or.inl rfl)
                (Nat.repr yp.1)) (pad2 mp.1)) (pad2 dp.1))
              copyOk fp.1 fp.2
  · refine ⟨fun q hq => absurd rfl hq, ?_⟩
    intro e he
    have he' : e ∈ (v3Scan fs images).2 := he
    rw [v3Scan_events] at he'
    exact eventUnder_progSeq out images.length 1 images.length e he'

/-! ## The EXIF branch never fires; main.py continuation; misc corollaries -/

theorem metadata_fallback (fs : FS) (p : String) (info : FileInfo)
    (hf : dGet fs p = some info) (hd : info.decodable = true)
    (hk : exifIntKeys info = true) :
    get_image_metadata fs p = (some info.mtimeDate, basename p) := by
  unfold get_image_metadata
  rw [hf]
  cases hex : info.exif with
  | none => simp [hd, hex]
  | some ed =>
    have hall : allIntKeys ed = true := by
      simp [exifIntKeys, hex] at hk
      exact hk
    by_cases hemp : ed.isEmpty = true
    · simp [hd, hex, hemp]
    · have hany := any_strK_eq_false hall "DateTimeOriginal"
      simp [hd, hex, hemp, date_time_original_tag, ExifTags_TAGS, hany]

theorem metadata_unreadable (fs : FS) (p : String) (info : FileInfo)
    (hf : dGet fs p = some info) (hd : info.decodable = false) :
    get_image_metadata fs p = (none, basename p) := by
  unfold get_image_metadata
  rw [hf]
  simp [hd]

theorem doCopy2_preserves {fs : FS} {src : String} {info : FileInfo}
    (h : dGet fs src = some info) (dst : String) :
    dGet (doCopy2 fs src dst) dst = some info := by
  rw [dGet_doCopy2_self, h]
  rfl

theorem mainRun_cons (fs : FS) (x : String) (rest : List String) (out : String)
    (copyOk : String → String → Bool) (now : CalDate) :
    copy_images_by_date_main fs (x :: rest) out copyOk now =
      ((copy_images_by_date_main (mainStep out copyOk now fs x).1 rest out
          copyOk now).1,
       (mainStep out copyOk now fs x).2 ++
         (copy_images_by_date_main (mainStep out copyOk now fs x).1 rest out
           copyOk now).2) :=
  rfl

theorem mainStep_failedCopy (out : String) (copyOk : String → String → Bool)
    (now : CalDate) (fs : FS) (x : String) (info : FileInfo)
    (ed : List (PyKey × String)) (s : String) (d : CalDate)
    (h1 : dGet fs x = some info) (h2 : info.decodable = true)
    (h3 : info.exif = some ed) (h4 : ed.isEmpty = false)
    (h5 : dGet ed (PyKey.intK 36867) = some s) (h6 : ¬ s = "")
    (h7 : strptime_date s = some d)
    (h8 : copyOk x (pjoin (pjoin out (isoDate d)) (basename x)) = false) :
    mainStep out copyOk now fs x =
      (fs, [Event.mkdir (pjoin out (isoDate d)), Event.report x]) := by
  unfold mainStep
  rw [h1]
  simp [h2, h3, h4, h5, h6, h7, h8]

theorem picmanDateRun_filterProg (fs : FS) (images : List String) (out : String)
    (copyOk : String → String → Bool) :
    filterProg (picmanDateRun fs images out copyOk).events =
      progList images.length := by
  obtain ⟨t, ht, hp⟩ := picmanDateRun_events_split fs images out copyOk
  rw [ht, filterProg_append, filterProg_eq_nil hp, List.append_nil]
  unfold progList
  exact filterProg_progSeq 1 images.length images.length

theorem v3Run_filterProg (fs : FS) (images : List String) (out : String)
    (copyOk : String → String → Bool) :
    filterProg (copy_images_by_date_v3 fs images out copyOk).events =
      progList images.length := by
  obtain ⟨t, ht, hp⟩ := v3Run_events_split fs images out copyOk
  rw [ht, filterProg_append, filterProg_eq_nil hp, List.append_nil]
  unfold progList
  exact filterProg_progSeq 1 images.length images.length

/-! ## The claims -/

/-- C1: the claim says that for an image whose EXIF metadata carries a
well-formed `DateTimeOriginal` (`YYYY:MM:DD HH:MM:SS`) the Date Resolver
returns that tag's calendar date, independent of the modification time.
The code disagrees with its own docstring: the tag lookup yields the tag
*name* and tests it against the integer-keyed `_getexif()` dict, so the
EXIF branch never fires.  On a file with capture date 2020-03-05 (tag
present and parseable) and modification date 2021-07-01,
`get_image_metadata` returns 2021-07-01. -/
theorem c1_exif_tag_ignored :
    strptime_date "2020:03:05 10:11:12" = some ⟨2020, 3, 5⟩ ∧
    exifFile.exif = some [(PyKey.intK 36867, "2020:03:05 10:11:12")] ∧
    get_image_metadata exifFS "/pics/a.jpg" = (some ⟨2021, 7, 1⟩, "a.jpg") ∧
    exifFile.mtimeDate = ⟨2021, 7, 1⟩ ∧
    (⟨2021, 7, 1⟩ : CalDate) ≠ ⟨2020, 3, 5⟩ := by
  decide

/-- C2: the claim says that in a same-(date, base-name) collision group the
first record keeps the unadorned name, later records get distinct numeric
suffixes, and every record is copied.  `picman.py`'s date mode violates
this: with two same-named same-dated inputs, the per-slot overwrite keeps
only the *last* record, copies it once under `copy_x.jpg`, and silently
drops the first; no file keeps the unadorned name.
`image-organizer-v3.py` on the same input behaves as the claim says. -/
theorem c2_collision_drops_first :
    (copy_images_by_date_picman collideFS ["/a/x.jpg", "/b/x.jpg"] "/out"
        alwaysOk false).events =
      [Event.progress 1 2, Event.progress 2 2, Event.mkdir "/out/2020/03/05",
       Event.copy "/b/x.jpg" "/out/2020/03/05/copy_x.jpg" true] ∧
    (copy_images_by_date_v3 collideFS ["/a/x.jpg", "/b/x.jpg"] "/out"
        alwaysOk).events =
      [Event.progress 1 2, Event.progress 2 2, Event.mkdir "/out/2020",
       Event.mkdir "/out/2020/03", Event.mkdir "/out/2020/03/05",
       Event.copy "/a/x.jpg" "/out/2020/03/05/x.jpg" true,
       Event.copy "/b/x.jpg" "/out/2020/03/05/x_1.jpg" true] := by
  decide

/-- C3 (counterexample): the claim says no copy ever overwrites an existing
destination file, the next suffix being probed instead.  `picman.py`'s
date-mode copy phase performs no existence check: with
`/out/2020/03/05/x.jpg` already present, the single input `/src/x.jpg`
(resolved date 2020-03-05) is copied straight onto the occupied path,
replacing its contents. -/
theorem c3_datecopy_overwrites :
    fsExists preoccupiedFS "/out/2020/03/05/x.jpg" = true ∧
    Event.copy "/src/x.jpg" "/out/2020/03/05/x.jpg" true ∈
      (copy_images_by_date_picman preoccupiedFS ["/src/x.jpg"] "/out"
        alwaysOk false).events ∧
    dGet (copy_images_by_date_picman preoccupiedFS ["/src/x.jpg"] "/out"
        alwaysOk false).fs "/out/2020/03/05/x.jpg" = some (plainFile 7) ∧
    plainFile 7 ≠ plainFile 9 := by
  decide

/-- C3 (amended): in the two materializers that probe the destination —
`picman.py`'s simple mode and `image-organizer-v3.py` — every copy targets
a path that was absent from the initial file system, and the written paths
are pairwise distinct, so no write ever overwrites a pre-existing or
just-written file.  `picman.py`'s date-mode copy phase is excluded: it
performs no existence check and can overwrite (see the counterexample). -/
theorem c3_probing_never_overwrites (fs : FS) (images : List String)
    (out : String) (copyOk : String → String → Bool) :
    ((copyDsts (copy_images_by_date_picman fs images out copyOk true).events).Nodup ∧
      ∀ d ∈ copyDsts (copy_images_by_date_picman fs images out copyOk
        true).events, fsExists fs d = false) ∧
    ((copyDsts (copy_images_by_date_v3 fs images out copyOk).events).Nodup ∧
      ∀ d ∈ copyDsts (copy_images_by_date_v3 fs images out copyOk).events,
        fsExists fs d = false) := by
  obtain ⟨_, h2, h3, _⟩ := NoClobber_simpleRun fs images out copyOk
  obtain ⟨_, h2', h3', _⟩ := NoClobber_v3Run fs images out copyOk
  exact ⟨⟨h2, h3⟩, ⟨h2', h3'⟩⟩

/-- C4 (counterexample): the claim says that for every input list of `N`
paths the progress callback is invoked exactly `N` times, as
`(1, N), ..., (N, N)`.  `picman.py`'s simple mode invokes the callback
*after* each `shutil.copy2` with no exception handler around it: in a
two-file run whose second copy fails, the callback is invoked once —
`(1, 2)` — and never reaches `(2, 2)`. -/
theorem c4_simple_copy_failure_short :
    (copy_images_by_date_picman collideFS ["/a/x.jpg", "/b/x.jpg"] "/out"
      failSecond true).events =
      [Event.copy "/a/x.jpg" "/out/x.jpg" true, Event.progress 1 2] ∧
    filterProg (copy_images_by_date_picman collideFS ["/a/x.jpg", "/b/x.jpg"]
      "/out" failSecond true).events = [Event.progress 1 2] ∧
    [Event.progress 1 2] ≠ progList 2 ∧
    (copy_images_by_date_picman collideFS ["/a/x.jpg", "/b/x.jpg"] "/out"
      failSecond true).ok = false := by
  decide

/-- C4 (amended): for an input list of `N` paths, the progress callback is
invoked exactly `N` times with totals `N` and counts `1, 2, ..., N`, the
final call reaching `(N, N)` — unconditionally for the date-hierarchy runs
of both `picman.py` and `image-organizer-v3.py` (progress happens in the
scan phase), and for `picman.py`'s simple mode exactly on the runs not
killed by a copy I/O error: there the callback follows each copy with no
handler, so an aborted run stops the sequence short (see the
counterexample). -/
theorem c4_progress_exact (fs : FS) (images : List String) (out : String)
    (copyOk : String → String → Bool) :
    filterProg (copy_images_by_date_picman fs images out copyOk false).events =
      progList images.length ∧
    filterProg (copy_images_by_date_v3 fs images out copyOk).events =
      progList images.length ∧
    ((copy_images_by_date_picman fs images out copyOk true).ok = true →
      filterProg (copy_images_by_date_picman fs images out copyOk
        true).events = progList images.length) := by
  refine ⟨?_, v3Run_filterProg fs images out copyOk, ?_⟩
  · exact picmanDateRun_filterProg fs images out copyOk
  · intro h
    exact picmanSimpleRun_progress fs images out copyOk h

/-- C4 (witness): a concrete two-file simple-mode run that survives, with
its exact progress trace `(1, 2), (2, 2)`. -/
theorem c4_progress_exact_witness :
    (copy_images_by_date_picman collideFS ["/a/x.jpg", "/b/x.jpg"] "/out"
      alwaysOk true).ok = true ∧
    filterProg (copy_images_by_date_picman collideFS ["/a/x.jpg", "/b/x.jpg"]
      "/out" alwaysOk true).events = progList 2 :=
  ⟨by decide, (c4_progress_exact collideFS ["/a/x.jpg", "/b/x.jpg"] "/out"
    alwaysOk).2.2 (by decide)⟩

/-- C5: for a file that decodes as an image, when the capture-time tag is
absent or its string does not parse as `YYYY:MM:DD HH:MM:SS`, the Date
Resolver returns the modification-time date; a malformed tag behaves
exactly like a missing one (neither an error nor an unreadable file). -/
theorem c5_malformed_tag_falls_back (fs : FS) (p : String) (info : FileInfo)
    (hf : dGet fs p = some info) (hd : info.decodable = true)
    (hk : exifIntKeys info = true) (_hm : tagMissingOrBad info = true) :
    get_image_metadata fs p = (some info.mtimeDate, basename p) :=
  metadata_fallback fs p info hf hd hk

/-- C5 (witness): a decodable image whose tag value `"not a date"` is
unparsable resolves to its modification date 2021-07-01. -/
theorem c5_malformed_tag_falls_back_witness :
    (dGet malformedFS "/m/x.jpg" = some malformedFile ∧
      malformedFile.decodable = true ∧ exifIntKeys malformedFile = true ∧
      tagMissingOrBad malformedFile = true) ∧
    get_image_metadata malformedFS "/m/x.jpg" =
      (some malformedFile.mtimeDate, basename "/m/x.jpg") :=
  ⟨⟨by decide, by decide, by decide, by decide⟩,
   c5_malformed_tag_falls_back malformedFS "/m/x.jpg" malformedFile
     (by decide) (by decide) (by decide) (by decide)⟩

/-- C6 (counterexample): the claim says an I/O failure of one physical copy
is caught, reported, and the run continues with the remaining records.  In
`picman.py` there is no handler: with the copy of the first input failing,
the run aborts — the trace is empty (nothing reported, the second file
never copied, no progress ever signalled). -/
theorem c6_picman_abort :
    (copy_images_by_date_picman collideFS ["/a/x.jpg", "/b/x.jpg"] "/out"
      failFirst true).events = [] ∧
    (copy_images_by_date_picman collideFS ["/a/x.jpg", "/b/x.jpg"] "/out"
      failFirst true).ok = false := by
  decide

/-- C6 (amended): in `main.py`'s `copy_images_by_date` the per-file
`try/except` makes a copy failure local: the failing record contributes its
directory creation and one error report, the file system is unchanged by
it, and the remaining records are processed exactly as they would have
been without it.  In `picman.py` (both modes) and `image-organizer-v3.py`
the failure propagates and aborts the batch (see the counterexample). -/
theorem c6_main_failure_is_local (fs : FS) (out : String)
    (copyOk : String → String → Bool) (now : CalDate) (x : String)
    (rest : List String) (info : FileInfo) (ed : List (PyKey × String))
    (s : String) (d : CalDate) (h1 : dGet fs x = some info)
    (h2 : info.decodable = true) (h3 : info.exif = some ed)
    (h4 : ed.isEmpty = false) (h5 : dGet ed (PyKey.intK 36867) = some s)
    (h6 : ¬ s = "") (h7 : strptime_date s = some d)
    (h8 : copyOk x (pjoin (pjoin out (isoDate d)) (basename x)) = false) :
    copy_images_by_date_main fs (x :: rest) out copyOk now =
      ((copy_images_by_date_main fs rest out copyOk now).1,
       Event.mkdir (pjoin out (isoDate d)) :: Event.report x ::
         (copy_images_by_date_main fs rest out copyOk now).2) := by
  rw [mainRun_cons,
    mainStep_failedCopy out copyOk now fs x info ed s d h1 h2 h3 h4 h5 h6 h7 h8]
  simp

/-- C6 (witness): a one-file `main.py` run whose copy fails reports the file
and finishes the (empty) remainder of the batch. -/
theorem c6_main_failure_is_local_witness :
    (dGet exifFS "/pics/a.jpg" = some exifFile ∧
      exifFile.decodable = true ∧
      exifFile.exif = some [(PyKey.intK 36867, "2020:03:05 10:11:12")] ∧
      dGet [(PyKey.intK 36867, "2020:03:05 10:11:12")] (PyKey.intK 36867) =
        some "2020:03:05 10:11:12" ∧
      strptime_date "2020:03:05 10:11:12" = some ⟨2020, 3, 5⟩ ∧
      neverOk "/pics/a.jpg" (pjoin (pjoin "/out" (isoDate ⟨2020, 3, 5⟩))
        (basename "/pics/a.jpg")) = false) ∧
    copy_images_by_date_main exifFS ["/pics/a.jpg"] "/out" neverOk
        ⟨2024, 6, 6⟩ =
      ((copy_images_by_date_main exifFS [] "/out" neverOk ⟨2024, 6, 6⟩).1,
       Event.mkdir (pjoin "/out" (isoDate ⟨2020, 3, 5⟩)) ::
         Event.report "/pics/a.jpg" ::
         (copy_images_by_date_main exifFS [] "/out" neverOk ⟨2024, 6, 6⟩).2) :=
  ⟨⟨by decide, by decide, by decide, by decide, by decide, by decide⟩,
   c6_main_failure_is_local exifFS "/out" neverOk ⟨2024, 6, 6⟩ "/pics/a.jpg"
     [] exifFile [(PyKey.intK 36867, "2020:03:05 10:11:12")]
     "2020:03:05 10:11:12" ⟨2020, 3, 5⟩ (by decide) (by decide) (by decide)
     (by decide) (by decide) (by decide) (by decide) (by decide)⟩

/-- C7: a file that does not decode as an image resolves to `none`, the
date-hierarchy materializer of `picman.py` never emits a copy whose source
is that file, and the run still reports the full progress sequence over all
input files (the failure is local to the one file). -/
theorem c7_unreadable_excluded (fs : FS) (images : List String) (out : String)
    (copyOk : String → String → Bool) (p : String) (info : FileInfo)
    (hp : dGet fs p = some info) (hund : info.decodable = false) :
    (get_image_metadata fs p).1 = none ∧
    (∀ s d b, Event.copy s d b ∈
      (copy_images_by_date_picman fs images out copyOk false).events →
      s ≠ p) ∧
    filterProg (copy_images_by_date_picman fs images out copyOk
      false).events = progList images.length := by
  refine ⟨by rw [metadata_unreadable fs p info hp hund], ?_, ?_⟩
  · intro s d b hmem hsp
    have hres := SrcsResolved_picmanDateRun fs images out copyOk s d b hmem
    rw [hsp, metadata_unreadable fs p info hp hund] at hres
    exact hres rfl
  · exact picmanDateRun_filterProg fs images out copyOk

/-- C7 (witness): with one corrupt file and one good image, the corrupt one
resolves to `none`, is never a copy source, and progress still runs
`(1, 2), (2, 2)`. -/
theorem c7_unreadable_excluded_witness :
    (dGet mixedFS "/c/bad.gif" = some corruptFile ∧
      corruptFile.decodable = false) ∧
    ((get_image_metadata mixedFS "/c/bad.gif").1 = none ∧
      (∀ s d b, Event.copy s d b ∈
        (copy_images_by_date_picman mixedFS ["/c/bad.gif", "/a/x.jpg"] "/out"
          alwaysOk false).events → s ≠ "/c/bad.gif") ∧
      filterProg (copy_images_by_date_picman mixedFS
        ["/c/bad.gif", "/a/x.jpg"] "/out" alwaysOk false).events =
        progList 2) :=
  ⟨⟨by decide, by decide⟩,
   c7_unreadable_excluded mixedFS ["/c/bad.gif", "/a/x.jpg"] "/out" alwaysOk
     "/c/bad.gif" corruptFile (by decide) (by decide)⟩

/-- C8 (counterexample): the claim says every successful copy preserves the
source's metadata, timestamps included.  `main.py`'s variant uses plain
`shutil.copy`: copying an image whose modification date is 2019-01-01 at
run time 2024-06-06 leaves the destination with modification date
2024-06-06 — the timestamp is not preserved. -/
theorem c8_main_copy_drops_timestamps :
    (copy_images_by_date_main mainExifFS ["/d/p.jpg"] "/out" alwaysOk
      ⟨2024, 6, 6⟩).2 =
      [Event.mkdir "/out/2020-03-05",
       Event.copy "/d/p.jpg" "/out/2020-03-05/p.jpg" false] ∧
    dGet (copy_images_by_date_main mainExifFS ["/d/p.jpg"] "/out" alwaysOk
      ⟨2024, 6, 6⟩).1 "/out/2020-03-05/p.jpg" =
      some { mainExifFile with mtimeDate := ⟨2024, 6, 6⟩ } ∧
    mainExifFile.mtimeDate = ⟨2019, 1, 1⟩ ∧
    (⟨2024, 6, 6⟩ : CalDate) ≠ ⟨2019, 1, 1⟩ := by
  decide

/-- C8 (amended): the `picman.py` (both modes) and `image-organizer-v3.py`
materializers copy with `shutil.copy2`: every copy event they emit is
metadata-preserving, and a `copy2` write stores the source's file record —
modification date included — unchanged at the destination.  `main.py`'s
variant is excluded (plain `shutil.copy`, see the counterexample). -/
theorem c8_copy2_preserves (fs : FS) (images : List String) (out : String)
    (copyOk : String → String → Bool) :
    (∀ s d b, Event.copy s d b ∈
      (copy_images_by_date_picman fs images out copyOk true).events →
      b = true) ∧
    (∀ s d b, Event.copy s d b ∈
      (copy_images_by_date_picman fs images out copyOk false).events →
      b = true) ∧
    (∀ s d b, Event.copy s d b ∈
      (copy_images_by_date_v3 fs images out copyOk).events → b = true) ∧
    (∀ src dst info, dGet fs src = some info →
      dGet (doCopy2 fs src dst) dst = some info) := by
  refine ⟨AllPreserve_picmanSimpleRun fs images out copyOk,
    AllPreserve_picmanDateRun fs images out copyOk,
    AllPreserve_v3Run fs images out copyOk, ?_⟩
  intro src dst info h
  exact doCopy2_preserves h dst

/-- C8 (witness): a concrete v3 copy event is metadata-preserving, and a
concrete `copy2` leaves the source's record (timestamps included) at the
destination. -/
theorem c8_copy2_preserves_witness :
    (Event.copy "/a/x.jpg" "/out/2020/03/05/x.jpg" true ∈
        (copy_images_by_date_v3 collideFS ["/a/x.jpg", "/b/x.jpg"] "/out"
          alwaysOk).events ∧
      true = true) ∧
    (dGet collideFS "/a/x.jpg" = some (plainFile 1) ∧
      dGet (doCopy2 collideFS "/a/x.jpg" "/out/z.jpg") "/out/z.jpg" =
        some (plainFile 1)) :=
  ⟨⟨by decide, (c8_copy2_preserves collideFS ["/a/x.jpg", "/b/x.jpg"] "/out"
      alwaysOk).2.2.1 "/a/x.jpg" "/out/2020/03/05/x.jpg" true (by decide)⟩,
   ⟨by decide, (c8_copy2_preserves collideFS ["/a/x.jpg", "/b/x.jpg"] "/out"
      alwaysOk).2.2.2 "/a/x.jpg" "/out/z.jpg" (plainFile 1) (by decide)⟩⟩

/-- C9 (counterexample): the claim says no source file is ever modified,
for every input list.  In `picman.py`'s date mode, when an input file lies
inside the destination tree, another input can be copied onto it: with
inputs `/out/2020/03/05/x.jpg` (modification date 2021-01-01) and
`/src2/x.jpg` (resolved date 2020-03-05) and destination root `/out`, the
run overwrites the first input file with the second's contents. -/
theorem c9_source_overwritten :
    dGet (copy_images_by_date_picman insideDestFS
        ["/out/2020/03/05/x.jpg", "/src2/x.jpg"] "/out" alwaysOk false).fs
      "/out/2020/03/05/x.jpg" = some (plainFile 7) ∧
    dGet insideDestFS "/out/2020/03/05/x.jpg" =
      some { decodable := true, exif := none, mtimeDate := ⟨2021, 1, 1⟩,
             content := 9 } ∧
    plainFile 7 ≠
      { decodable := true, exif := none, mtimeDate := ⟨2021, 1, 1⟩,
        content := 9 } := by
  decide

/-- C9 (amended): provided no input path lies under the destination root,
none of the three engines (`picman.py` simple and date modes,
`image-organizer-v3.py`) ever modifies, moves or deletes a source file —
every input path maps to its original file afterwards — and every
file-system effect (directory creation or file write) targets a path under
the destination root.  Nothing is ever deleted in any case; without the
proviso a source inside the destination tree can be overwritten (see the
counterexample). -/
theorem c9_writes_confined (fs : FS) (images : List String) (out : String)
    (copyOk : String → String → Bool)
    (hdisj : ∀ p ∈ images, ∀ r : String, p ≠ pjoin out r) :
    (∀ p ∈ images,
      dGet (copy_images_by_date_picman fs images out copyOk true).fs p =
        dGet fs p ∧
      dGet (copy_images_by_date_picman fs images out copyOk false).fs p =
        dGet fs p ∧
      dGet (copy_images_by_date_v3 fs images out copyOk).fs p = dGet fs p) ∧
    (∀ e ∈ (copy_images_by_date_picman fs images out copyOk true).events,
      eventUnder out e) ∧
    (∀ e ∈ (copy_images_by_date_picman fs images out copyOk false).events,
      eventUnder out e) ∧
    (∀ e ∈ (copy_images_by_date_v3 fs images out copyOk).events,
      eventUnder out e) := by
  obtain ⟨hs1, hs2⟩ := Confined_picmanSimpleRun fs images out copyOk
  obtain ⟨hd1, hd2⟩ := Confined_picmanDateRun fs images out copyOk
  obtain ⟨hv1, hv2⟩ := Confined_v3Run fs images out copyOk
  refine ⟨?_, hs2, hd2, hv2⟩
  intro p hp
  refine ⟨?_, ?_, ?_⟩
  · by_contra hne
    obtain ⟨r, hr⟩ := hs1 p hne
    exact hdisj p hp r hr
  · by_contra hne
    obtain ⟨r, hr⟩ := hd1 p hne
    exact hdisj p hp r hr
  · by_contra hne
    obtain ⟨r, hr⟩ := hv1 p hne
    exact hdisj p hp r hr

/-- C9 (witness): for the one-file input `/src/x.jpg` (not under `/out`),
all three runs leave the source untouched and touch only paths under
`/out`. -/
theorem c9_writes_confined_witness :
    (∀ p ∈ ["/src/x.jpg"], ∀ r : String, p ≠ pjoin "/out" r) ∧
    ((∀ p ∈ ["/src/x.jpg"],
        dGet (copy_images_by_date_picman preoccupiedFS ["/src/x.jpg"] "/out"
          alwaysOk true).fs p = dGet preoccupiedFS p ∧
        dGet (copy_images_by_date_picman preoccupiedFS ["/src/x.jpg"] "/out"
          alwaysOk false).fs p = dGet preoccupiedFS p ∧
        dGet (copy_images_by_date_v3 preoccupiedFS ["/src/x.jpg"] "/out"
          alwaysOk).fs p = dGet preoccupiedFS p) ∧
      (∀ e ∈ (copy_images_by_date_picman preoccupiedFS ["/src/x.jpg"] "/out"
        alwaysOk true).events, eventUnder "/out" e) ∧
      (∀ e ∈ (copy_images_by_date_picman preoccupiedFS ["/src/x.jpg"] "/out"
        alwaysOk false).events, eventUnder "/out" e) ∧
      (∀ e ∈ (copy_images_by_date_v3 preoccupiedFS ["/src/x.jpg"] "/out"
        alwaysOk).events, eventUnder "/out" e)) := by
  have hdisj : ∀ p ∈ ["/src/x.jpg"], ∀ r : String, p ≠ pjoin "/out" r := by
    intro p hp r h
    rw [List.mem_singleton] at hp
    subst hp
    have h2 : ('/' :: 's' :: 'r' :: 'c' :: '/' :: 'x' :: '.' :: 'j' :: 'p' ::
        'g' :: []) = ('/' :: 'o' :: 'u' :: 't' :: '/' :: r.data) :=
      congrArg String.data h
    injection h2 with _ h3
    injection h3 with h4 _
    exact absurd h4 (by decide)
  exact ⟨hdisj,
    c9_writes_confined preoccupiedFS ["/src/x.jpg"] "/out" alwaysOk hdisj⟩

/-- C10: in date-hierarchy mode (both `picman.py` and
`image-organizer-v3.py`), the trace starts with the complete progress
sequence `(1, N), ..., (N, N)` — emitted during the scanning phase — and
everything after it (directory creations and copies) contains no progress
event: all progress, including the final `(N, N)`, happens before any file
is copied. -/
theorem c10_progress_before_copies (fs : FS) (images : List String)
    (out : String) (copyOk : String → String → Bool) :
    (∃ t, (copy_images_by_date_picman fs images out copyOk false).events =
        progList images.length ++ t ∧ ∀ e ∈ t, isProg e = false) ∧
    (∃ t, (copy_images_by_date_v3 fs images out copyOk).events =
        progList images.length ++ t ∧ ∀ e ∈ t, isProg e = false) :=
  ⟨picmanDateRun_events_split fs images out copyOk,
   v3Run_events_split fs images out copyOk⟩
